import Mathlib

/-!
# Verification of the AMBE vocoder driver core

Shallow embedding, in Lean 4, of the packet / framing layer and the request
schedulers of the `ambe` library (DVSI AMBE vocoder chips driver), together
with proofs and refutations of the specified properties.

Bytes are modelled as natural numbers (`Nat`), byte strings as `List Nat`.
Machine-integer truncation is made explicit with `% 2^w` where the C++ source
truncates.  Fallible C++ constructors/methods (which `throw`) are modelled
with `Except String`.

Source files embedded here:
 * `packet.cc` / `packet.h` (`ambe::Packet`: builder, parser, finalize,
   channel accessor),
 * `device.h`/`device.cc` (`Header`, `Field`, `ParityField`, `ModeField`,
   field type tags),
 * `scheduler.cc` / `scheduler.h` (`FifoScheduler`, `MultiQueueScheduler`),
 * `api.cc` (`API::softReset`),
 * `api.h` (`AmbeFrame::byteLength`).
-/

namespace Ambe

def START_BYTE : Nat := 0x61

def FT_PARITY : Nat := 0x2f

def FT_PRODID : Nat := 0x30

def FT_RESET : Nat := 0x33

def FT_READY : Nat := 0x39

def FT_CHANNEL0 : Nat := 0x40

def FT_CHANNEL1 : Nat := 0x41

def FT_CHANNEL2 : Nat := 0x42

/-! ## Parity (device.h, `ParityField::parity`)

`static uint8_t parity(const string_view& data) { uint8_t v = 0; for(uint8_t c
: data) v ^= c; return v; }` -/

def parityOf (data : List Nat) : Nat := data.foldl (fun v c => v ^^^ c) 0

/-! ## Header (device.h, `struct Header`)

The header is 4 bytes: `start_byte = 0x61`, a big-endian `uint16` length and a
type byte.  `Header::check` validates a raw byte string. -/

/-- The big-endian `uint16` length field of a raw packet (bytes 1 and 2),
as read by `Header::getLength` (`ntohs`). -/
def headerLen (b : List Nat) : Nat := (b.getD 1 0) * 256 + b.getD 2 0

/-- `Header::check(packet)` (device.h).  Validates minimum size, start byte,
length field and type byte, throwing `runtime_error` on each violation. -/
def headerCheck (b : List Nat) : Except String Unit :=
  if b.length < 4 then .error "Packet too short to have header"
  else if b.getD 0 0 ≠ START_BYTE then .error "Invalid packet start byte"
  else if headerLen b ≠ b.length - 4 then .error "Invalid packet length"
  else if b.getD 3 0 = 0 ∨ b.getD 3 0 = 1 ∨ b.getD 3 0 = 2 then .ok ()
  else .error "Invalid packet type"

/-! ## Packet (packet.cc)

A `Packet` owns a byte buffer and remembers whether a trailing parity field is
present (`has_parity`). -/

structure Packet where
  buffer : List Nat
  has_parity : Bool
deriving DecidableEq, Repr

namespace Packet

/-- `Packet::Packet(PacketType type)` — a zeroed 4-byte header of the given
type; placement-new writes `start_byte = 0x61`, `length = 0`, `type`. -/
def new (type : Nat) : Packet := ⟨[START_BYTE, 0, 0, type], false⟩

/-- `Packet::Packet(const string&, bool has_parity, bool check_parity)` —
the parsing constructor.  With `has_parity` it first requires at least
6 bytes, requires the trailing field pair to be tagged `PARITY`, and with
`check_parity` compares the XOR of bytes `1 .. len-2` (the parity value byte
itself excluded, the parity tag byte included) against the stored value byte;
afterwards `Header::check` validates the header. -/
def parse (b : List Nat) (has_parity check_parity : Bool) :
    Except String Packet :=
  if has_parity then
    if b.length < 6 then .error "Packet too short to have parity field"
    else if b.getD (b.length - 2) 0 ≠ FT_PARITY then
      .error "Invalid parity header"
    else if check_parity ∧
        parityOf ((b.drop 1).take (b.length - 2)) ≠ b.getD (b.length - 1) 0 then
      .error "Invalid packet parity"
    else
      match headerCheck b with
      | .error e => .error e
      | .ok _ => .ok ⟨b, has_parity⟩
  else
    match headerCheck b with
    | .error e => .error e
    | .ok _ => .ok ⟨b, has_parity⟩

/-- `Packet::payloadLength` — `buffer.length() - sizeof(Header) -
(has_parity ? sizeof(ParityField) : 0)`, computed in `size_t` (wrap-around
for buffers shorter than the subtracted sizes) and returned as `uint16_t`. -/
def payloadLength (p : Packet) : Nat :=
  (p.buffer.length + 2 ^ 64 - 4 - (if p.has_parity then 2 else 0)) % 2 ^ 64
    % 2 ^ 16

/-- `Packet::type` — the header type byte. -/
def type (p : Packet) : Nat := p.buffer.getD 3 0

/-- `Packet::data` — the raw buffer. -/
def data (p : Packet) : List Nat := p.buffer

/-- `Packet::append<Field>(tag)` — grow the buffer by one tag byte
(e.g. `Field(PRODID)` or `Field(RESET)`). -/
def appendFieldTag (p : Packet) (tag : Nat) : Packet :=
  ⟨p.buffer ++ [tag], p.has_parity⟩

/-- `Packet::updateHeaderLength` — store `buffer.length() - sizeof(Header)`
into the big-endian `uint16` header length field.  (Only ever invoked on
buffers holding at least the 4 header bytes.) -/
def updateHeaderLength (b : List Nat) : List Nat :=
  let L := (b.length - 4) % 2 ^ 16
  (b.set 1 (L / 256)).set 2 (L % 256)

/-- `Packet::finalize(bool with_parity)` (packet.cc).  Drops or appends the
trailing 2-byte parity field as needed, updates the header length, and (when
parity is kept) recomputes the parity value over bytes `1 .. len-2` of the
final buffer.  The freshly appended `ParityField` value byte is uninitialised
in C++ until that final write; it is modelled as 0 (it is overwritten before
it can be observed, and it is excluded from the XOR range). -/
def finalize (p : Packet) (with_parity : Bool) : Packet :=
  let b₀ :=
    if p.has_parity ∧ ¬with_parity then
      p.buffer.take (p.buffer.length - 2)
    else if ¬p.has_parity ∧ with_parity then
      p.buffer ++ [FT_PARITY, 0]
    else p.buffer
  let hp := with_parity
  let b₁ := updateHeaderLength b₀
  if hp then
    ⟨b₁.set (b₁.length - 1) (parityOf ((b₁.drop 1).take (b₁.length - 2))), hp⟩
  else ⟨b₁, hp⟩

/-- `Packet::channel` (packet.cc), as the total happy-path value: the first
payload field tag is at buffer offset `sizeof(Header) = 4`; tags
`CHANNEL0..CHANNEL2` yield `tag - CHANNEL0`, anything else yields `-1`
("no channel").  The C++ method additionally throws when the payload is
empty (see `channelE`); the schedulers only invoke it on packets whose
payload is non-empty, where the two definitions agree. -/
def channel (p : Packet) : Int :=
  let t := p.buffer.getD 4 0
  if t = FT_CHANNEL0 ∨ t = FT_CHANNEL1 ∨ t = FT_CHANNEL2 then
    (t : Int) - (FT_CHANNEL0 : Int)
  else -1

/-- `Packet::channel` with the exception behaviour of
`payload<Field>()` included: `payload` throws `runtime_error("Packet too
short to have given payload type")` whenever `payloadLength() - offset <
sizeof(FieldClass)`, i.e. (offset 0, `sizeof(Field) = 1`) whenever the
payload is empty. -/
def channelE (p : Packet) : Except String Int :=
  if p.payloadLength < 1 then
    .error "Packet too short to have given payload type"
  else .ok p.channel

end Packet

/-! ## ModeField (device.h, `struct ModeField`)

`params = (ns_e << 6) | (cp_s << 7) | (cp_e << 8) | (dtx_e << 11) |
(td_e << 12) | (ts_e << 14);` — the `bool`s promote to `int`, the bitwise OR
is computed at full width and the assignment to the `uint8_t` member
truncates to 8 bits. -/

def bit (x : Bool) : Nat := if x then 1 else 0

def modeFieldParams (ns_e cp_s cp_e dtx_e td_e ts_e : Bool) : Nat :=
  (bit ns_e <<< 6 ||| bit cp_s <<< 7 ||| bit cp_e <<< 8 |||
   bit dtx_e <<< 11 ||| bit td_e <<< 12 ||| bit ts_e <<< 14) % 2 ^ 8

/-! ## AmbeFrame::byteLength (api.h)

`static uint byteLength(uint count) { return count / 8 + (count % 8 > 0); }` -/

def byteLength (count : Nat) : Nat :=
  count / 8 + (if count % 8 > 0 then 1 else 0)

/-! ## Scenario S1: the PRODID control packet (claim C5) -/

/-- The packet of scenario S1: a CONTROL packet holding the single field
`Field(PRODID = 0x30)`, finalized with parity. -/
def prodidPacket : Packet := ((Packet.new 0).appendFieldTag FT_PRODID).finalize true

/-- The parse failure condition as the specification states it: bad start
byte, type byte outside `{0,1,2}`, header length field different from
`bytes.len - 4`, or — when `has_parity` — buffer shorter than 6 bytes, a
trailing two-byte pair not tagged `PARITY = 0x2f`, or — when additionally
`check_parity` — an XOR of bytes `1 .. len-2` different from the stored
parity value.  A byte that does not exist (`·[i]? = none`) is "not the
required value". -/
def parseFailCond (b : List Nat) (hp cp : Bool) : Prop :=
  b[0]? ≠ some START_BYTE ∨
  (b[3]? ≠ some 0 ∧ b[3]? ≠ some 1 ∧ b[3]? ≠ some 2) ∨
  headerLen b ≠ b.length - 4 ∨
  (hp = true ∧ (b.length < 6 ∨ b.getD (b.length - 2) 0 ≠ FT_PARITY ∨
    (cp = true ∧
      parityOf ((b.drop 1).take (b.length - 2)) ≠ b.getD (b.length - 1) 0)))

structure FifoState where
  tag : Int
  submitted : List (Int × Nat)
deriving DecidableEq, Repr

/-- `submitted[tag] = callback` — `unordered_map::operator[]` assignment:
overwrite an existing key or add a new entry. -/
def mapInsert (m : List (Int × Nat)) (k : Int) (v : Nat) : List (Int × Nat) :=
  if m.any (fun kv => kv.1 == k) then
    m.map (fun kv => if kv.1 == k then (k, v) else kv)
  else m ++ [(k, v)]

/-- `FifoScheduler::start` — `tag = 0`, no outstanding submissions. -/
def fifoStart : FifoState := ⟨0, []⟩

/-- `FifoScheduler::submitAsync(packet, callback)` under the lock:

```
try { device.send(++tag, packet.data()); } catch(...) { callback(Packet()); }
submitted[tag] = callback;
```

`sendOk` tells whether `device.send` returned normally or threw.  The result
is the new scheduler state together with the list of callback invocations
performed during the call (`Packet()` is the default empty CONTROL packet).
Note that the map assignment is not conditional on the send outcome. -/
def fifoSubmitAsync (s : FifoState) (callback : Nat) (sendOk : Bool) :
    FifoState × List (Nat × Packet) :=
  let t := s.tag + 1
  let invoked := if sendOk then [] else [(callback, Packet.new 0)]
  (⟨t, mapInsert s.submitted t callback⟩, invoked)

/-- `string zero(10, '\0')` — ten zero bytes. -/
def zeroChunk : List Nat := List.replicate 10 0

/-- The zero-byte send loop of `API::softReset`, accumulating the trace of
`dev->send` calls. -/
def sendZeros : Nat → List (List Nat) → List (List Nat)
  | 0, trace => trace
  | n + 1, trace => sendZeros n (trace ++ [zeroChunk])

/-- The RESET request packet built by `API::softReset`: a default CONTROL
packet with a single `Field(RESET)`, finalized with `device.uses_parity`. -/
def resetPacket (uses_parity : Bool) : Packet :=
  ((Packet.new 0).appendFieldTag FT_RESET).finalize uses_parity

/-- The full sequence of byte strings handed to the device by
`API::softReset` (the RESET request reaches the device through
`scheduler.submit`). -/
def softResetSends (uses_parity : Bool) : List (List Nat) :=
  sendZeros 3500 [] ++ [(resetPacket uses_parity).data]

/-- `FifoScheduler::recv` / `MultiQueueScheduler::recv` construct every
response packet as `Packet(move(packet), device.uses_parity, false)` — with
`check_parity = false`, so response parity is never checked by the
schedulers (and `API::softReset` performs no `checkParity` call of its
own). -/
def recvParse (bytes : List Nat) (uses_parity : Bool) : Except String Packet :=
  Packet.parse bytes uses_parity false

/-- A READY response whose trailing parity value byte is corrupted
(the correct XOR would be `0x15`). -/
def readyBadParity : List Nat := [0x61, 0x00, 0x03, 0x00, 0x39, 0x2f, 0x55]

abbrev Req := Packet × Option Nat

/-- `MultiQueueScheduler::typeIndex` — `CHANNEL → 1`, `SPEECH → 0`,
`CONTROL → 0`.  (The C++ default branch throws `logic_error` for header
type bytes outside `{0,1,2}`; packets built or parsed by the library always
carry type 0, 1 or 2.) -/
def typeIndex (p : Packet) : Nat := if p.type = 1 then 1 else 0

/-- `MultiQueueScheduler::queueIndex` — `-1` for packets without a channel
field (they go to the per-device queue), otherwise
`queues_per_channel * channel + typeIndex(request)` with
`queues_per_channel = 2`. -/
def queueIndex (p : Packet) : Int :=
  if p.channel = -1 then -1 else 2 * p.channel + (typeIndex p : Int)

/-- The scheduling state: constructor state (`channel_queue`,
`submitted_by_queue`, …) plus the locals of `MultiQueueScheduler::run`
(`next`, `quit`, `queued`, `terminated`) plus the two observable traces. -/
structure MQ where
  channels : Nat
  device_queue : List Req
  channel_queue : List (List Req)
  submitted : List Req
  submitted_by_type : List Nat
  submitted_by_queue : List Nat
  queued : Nat
  quit : Bool
  terminated : Option Nat
  next : Nat
  sent : List Req
  delivered : List (Nat × Packet)
deriving DecidableEq, Repr

/-- The state after the constructor (`channel_queue` and
`submitted_by_queue` sized `channels * queues_per_channel`) and the
initialization of `run`'s locals. -/
def initMQ (channels : Nat) : MQ :=
  { channels := channels
    device_queue := []
    channel_queue := List.replicate (2 * channels) []
    submitted := []
    submitted_by_type := List.replicate 3 0
    submitted_by_queue := List.replicate (2 * channels) 0
    queued := 0
    quit := false
    terminated := none
    next := 0
    sent := []
    delivered := [] }

/-- `MultiQueueScheduler::canSend` — the admission predicate.  Note the
per-queue bound is only tested when `queueIndex(request) > 0` (the source
tests `i > 0`, not `i != -1`), so channel 0's SPEECH/CONTROL queue (index 0)
is exempt from the `submitted_by_queue[i] >= 2` refusal. -/
def canSend (s : MQ) (request : Packet) : Bool :=
  if s.submitted.length ≥ s.channel_queue.length + 4 then false
  else if s.submitted_by_type.getD (typeIndex request) 0 ≥ s.channels + 2 then
    false
  else
    let i := queueIndex request
    if i > 0 ∧ s.submitted_by_queue.getD i.toNat 0 ≥ 2 then false
    else true

/-- The event dispatch at the top of `MultiQueueScheduler::run`'s loop body:
empty packet → set `quit` and stash the callback; engaged callback → file
the request into the device queue or its channel queue; otherwise the event
is a response from the chip → resolve the front of `submitted` (the
decrement of an unsigned counter at 0 would wrap in C++; it never happens,
see the counter invariants). -/
def dispatch (s : MQ) (e : Req) : MQ :=
  if e.1.payloadLength = 0 then
    { s with quit := true,
             terminated := if e.2.isSome then e.2 else s.terminated }
  else if e.2.isSome then
    let i := queueIndex e.1
    if i = -1 then
      { s with device_queue := s.device_queue ++ [e], queued := s.queued + 1 }
    else
      { s with
          channel_queue :=
            s.channel_queue.set i.toNat
              (s.channel_queue.getD i.toNat [] ++ [e]),
          queued := s.queued + 1 }
  else
    match s.submitted with
    | [] => s
    | r :: rest =>
      let i := queueIndex r.1
      let s1 :=
        if i ≠ -1 then
          { s with
            submitted_by_type :=
              s.submitted_by_type.set (typeIndex r.1)
                (s.submitted_by_type.getD (typeIndex r.1) 0 - 1),
            submitted_by_queue :=
              s.submitted_by_queue.set i.toNat
                (s.submitted_by_queue.getD i.toNat 0 - 1) }
        else s
      let s2 :=
        match r.2 with
        | some c => { s1 with delivered := s1.delivered ++ [(c, e.1)] }
        | none => s1
      { s2 with submitted := rest }

/-- The high-priority device-queue drain loop of `run`:
`while(!device_queue.empty())` sending while `canSend` admits.  The fuel is
the queue length at entry, which bounds the number of iterations exactly. -/
def drainDevice : Nat → MQ → MQ
  | 0, s => s
  | fuel + 1, s =>
    match s.device_queue with
    | [] => s
    | e :: rest =>
      if canSend s e.1 then
        drainDevice fuel
          { s with device_queue := rest,
                   submitted := s.submitted ++ [e],
                   sent := s.sent ++ [e],
                   queued := s.queued - 1 }
      else s

/-- The round-robin channel-queue scan of `run`:

```
for (j = 0; (j < queues) && queued; j++, next = (next + 1) % queues) {
  ...; if (send succeeded) { ...; j = 0; } }
```

A successful send resets `j` to 0 inside the body, so after the update
clause the scan resumes with `j = 1`.  The loop exits when `j` reaches
`queues` or `queued` reaches 0; each iteration strictly decreases the
measure `queued * (queues + 1) + (queues - j)`, so with fuel
`(queued + 1) * (queues + 1)` (strictly above the measure at entry) the
fueled recursion never exhausts its fuel before the loop conditions exit:
it is exactly the C++ loop. -/
def drainChannels : Nat → MQ → Nat → MQ
  | 0, s, _ => s
  | fuel + 1, s, j =>
    let queues := s.channel_queue.length
    if j < queues ∧ s.queued ≠ 0 then
      match s.channel_queue.getD s.next [] with
      | [] =>
        drainChannels fuel { s with next := (s.next + 1) % queues } (j + 1)
      | e :: rest =>
        if canSend s e.1 then
          drainChannels fuel
            { s with
              channel_queue := s.channel_queue.set s.next rest,
              submitted_by_type :=
                s.submitted_by_type.set (typeIndex e.1)
                  (s.submitted_by_type.getD (typeIndex e.1) 0 + 1),
              submitted_by_queue :=
                s.submitted_by_queue.set (queueIndex e.1).toNat
                  (s.submitted_by_queue.getD (queueIndex e.1).toNat 0 + 1),
              submitted := s.submitted ++ [e],
              sent := s.sent ++ [e],
              queued := s.queued - 1,
              next := (s.next + 1) % queues } 1
        else
          drainChannels fuel { s with next := (s.next + 1) % queues } (j + 1)
    else s

/-- One iteration of `run`'s while loop: dispatch one popped event, then
drain the device queue, then scan the channel queues. -/
def step (s : MQ) (e : Req) : MQ :=
  let s1 := dispatch s e
  let s2 := drainDevice s1.device_queue.length s1
  drainChannels ((s2.queued + 1) * (s2.channel_queue.length + 1)) s2 0

/-- `run`'s while loop `while (!quit || queued || submitted.size())` folded
over the list of events popped from `process`.  The Boolean result tells
whether the loop exited (`true`) or would block forever waiting on
`process.pop()` with no further event (`false`). -/
def runLoop : MQ → List Req → MQ × Bool
  | s, evs =>
    if s.quit = true ∧ s.queued = 0 ∧ s.submitted = [] then (s, true)
    else
      match evs with
      | [] => (s, false)
      | e :: rest => runLoop (step s e) rest

/-- The whole of `MultiQueueScheduler::run`: the loop, then — on exit —
`if (terminated) terminated.value()(Packet())`. -/
def run (channels : Nat) (evs : List Req) : MQ × Bool :=
  match runLoop (initMQ channels) evs with
  | (s, true) =>
    match s.terminated with
    | some c => ({ s with delivered := s.delivered ++ [(c, Packet.new 0)] }, true)
    | none => (s, true)
  | (s, false) => (s, false)

/-- A SPEECH packet for channel 0 (`ChannelField(0)` payload, no parity):
bytes `61 00 01 02 40`, `queueIndex = 0`. -/
def spch0 : Packet := ((Packet.new 2).appendFieldTag FT_CHANNEL0).finalize false

/-- Three back-to-back SPEECH requests for channel 0 with no intervening
responses. -/
def c1Events : List Req := [(spch0, some 1), (spch0, some 2), (spch0, some 3)]

def ids (l : List Req) : List Nat := l.filterMap Prod.snd

/-- The run loop files an event iff its payload is non-empty and its
callback optional is engaged. -/
def isReq (e : Req) : Bool := e.1.payloadLength != 0 && e.2.isSome

/-- Filter predicate: events destined for queue `q` (`-1` = device queue). -/
def qiP (q : Int) : Req → Bool := fun e => queueIndex e.1 == q

/-- Well-formed event for a scheduler with `N` channels: a request's queue
index is either `-1` (device-wide) or a valid channel-queue index.  (The C++
code indexes `channel_queue[i]` unchecked; a request for a channel the
device does not have is out of contract.) -/
def wfEvent (N : Nat) (e : Req) : Prop :=
  e.2.isSome = true → e.1.payloadLength ≠ 0 →
    queueIndex e.1 = -1 ∨
      (0 ≤ queueIndex e.1 ∧ queueIndex e.1 < 2 * (N : Int))

structure Inv (N : Nat) (processed : List Req) (s : MQ) : Prop where
  chans : s.channels = N
  len_cq : s.channel_queue.length = 2 * N
  queued_eq : s.queued =
    s.device_queue.length + (s.channel_queue.map List.length).sum
  dev_inv : s.sent.filter (qiP (-1)) ++ s.device_queue
      = (processed.filter isReq).filter (qiP (-1))
  chan_inv : ∀ q : Nat, q < 2 * N →
      s.sent.filter (qiP q) ++ s.channel_queue.getD q []
        = (processed.filter isReq).filter (qiP q)
  sent_range : ∀ e ∈ s.sent,
      queueIndex e.1 = -1 ∨ ∃ q : Nat, q < 2 * N ∧ queueIndex e.1 = (q : Int)
  sub_split : ∃ resolved, s.sent = resolved ++ s.submitted ∧
      s.delivered.map Prod.fst = ids resolved
  term_src : ∀ c, s.terminated = some c →
      ∃ e ∈ processed, e.1.payloadLength = 0 ∧ e.2 = some c

instance wfEventDecidable (N : Nat) (e : Req) : Decidable (wfEvent N e) := by
  unfold wfEvent
  infer_instance

/-- A READY response body (payload `Field(READY)`, no parity):
bytes `61 00 01 00 39`. -/
def respReady : Packet := ((Packet.new 0).appendFieldTag FT_READY).finalize false

/-- Witness scenario for C2: two SPEECH requests for channel 0 followed by
two chip responses. -/
def c2Events : List Req :=
  [(spch0, some 1), (spch0, some 2), (respReady, none), (respReady, none)]

/-- Witness scenario for C10: one request, its response, then a termination
sentinel with callback 9. -/
def c10Events : List Req :=
  [(spch0, some 1), (respReady, none), (Packet.new 0, some 9)]

/-! ## Theorems -/

/-- C5 counterexample: the finalized PRODID packet is NOT
`61 00 03 00 30 2f 30` — its parity byte is `00^03^00^30^2f = 0x1c`,
not `0x30` — and the claimed byte string does not even parse with
`check_parity = true` (its stored parity byte disagrees with the XOR). -/
theorem prodidPacket_not_claimed_bytes :
    prodidPacket.buffer ≠ [0x61, 0x00, 0x03, 0x00, 0x30, 0x2f, 0x30] ∧
    (Packet.parse [0x61, 0x00, 0x03, 0x00, 0x30, 0x2f, 0x30] true true).isOk
      = false := by
  decide

/-- C5 (amended): the finalized PRODID packet is exactly
`61 00 03 00 30 2f 1c` (parity byte `0x1c`); those bytes round-trip through
`Packet::parse` with `has_parity = true, check_parity = true`; and a
subsequent `finalize(false)` strips the parity field and rewrites the header
length, yielding exactly `61 00 01 00 30`. -/
theorem prodidPacket_bytes :
    prodidPacket.buffer = [0x61, 0x00, 0x03, 0x00, 0x30, 0x2f, 0x1c] ∧
    (Packet.parse prodidPacket.buffer true true).isOk = true ∧
    (prodidPacket.finalize false).buffer = [0x61, 0x00, 0x01, 0x00, 0x30] := by
  decide

/-! ## Claim C7: the channel accessor -/

/-- C7 counterexample: on a packet with an empty payload (here the default
`Packet()`, a bare CONTROL header) the channel accessor does not report
"no channel" — `payload<Field>()` throws `runtime_error` because the payload
is too short to hold a field tag. -/
theorem channel_empty_payload_throws :
    ((Packet.new 0).channelE).isOk = false ∧
    (Packet.new 0).channelE
      = Except.error "Packet too short to have given payload type" := by
  exact ⟨rfl, rfl⟩

/-- C7 (amended): on a packet with a non-empty payload the channel accessor
reports `tag - 0x40` when the first payload field tag lies in
`{CHANNEL0 = 0x40, CHANNEL1 = 0x41, CHANNEL2 = 0x42}` and "no channel" (-1)
for every other first tag; on a packet with an empty payload it fails
(throws `runtime_error("Packet too short to have given payload type")`). -/
theorem channel_accessor (p : Packet) :
    (p.payloadLength = 0 →
      p.channelE = .error "Packet too short to have given payload type") ∧
    (1 ≤ p.payloadLength →
      ((p.buffer.getD 4 0 = FT_CHANNEL0 ∨ p.buffer.getD 4 0 = FT_CHANNEL1 ∨
          p.buffer.getD 4 0 = FT_CHANNEL2) →
        p.channelE = .ok ((p.buffer.getD 4 0 : Int) - (FT_CHANNEL0 : Int))) ∧
      (¬(p.buffer.getD 4 0 = FT_CHANNEL0 ∨ p.buffer.getD 4 0 = FT_CHANNEL1 ∨
          p.buffer.getD 4 0 = FT_CHANNEL2) →
        p.channelE = .ok (-1))) := by
  refine ⟨fun h0 => ?_, fun h1 => ⟨fun ht => ?_, fun ht => ?_⟩⟩
  · simp [Packet.channelE, h0]
  · have hlt : ¬ p.payloadLength < 1 := by omega
    simp only [Packet.channelE, Packet.channel]
    rw [if_neg hlt, if_pos ht]
  · have hlt : ¬ p.payloadLength < 1 := by omega
    simp only [Packet.channelE, Packet.channel]
    rw [if_neg hlt, if_neg ht]

/-- Witness for `channel_accessor`: evaluated on the bare CONTROL header
(empty payload), on a SPEECH packet whose first field is `CHANNEL0` and on
the PRODID packet (first tag `0x30`, no channel). -/
theorem channel_accessor_witness :
    (Packet.new 0).channelE
        = .error "Packet too short to have given payload type" ∧
    (((Packet.new 2).appendFieldTag FT_CHANNEL0).finalize false).channelE
        = .ok 0 ∧
    (((Packet.new 0).appendFieldTag FT_PRODID).finalize false).channelE
        = .ok (-1) := by
  refine ⟨(channel_accessor _).1 (by decide), ?_, ?_⟩
  · have h := ((channel_accessor
      (((Packet.new 2).appendFieldTag FT_CHANNEL0).finalize false)).2
        (by decide)).1 (by decide)
    simpa using h
  · exact ((channel_accessor
      (((Packet.new 0).appendFieldTag FT_PRODID).finalize false)).2
        (by decide)).2 (by decide)

/-! ## Claim C8: the ModeField parameter byte -/

/-- C8: for all six flags, the single `ModeField` parameter byte — the OR of
`flag << position` for positions `{6,7,8,11,12,14}` truncated to 8 bits —
equals `((ns_e << 6) | (cp_s << 7)) % 256`: the flags at bit positions 8, 11,
12 and 14 contribute nothing to the wire byte. -/
theorem modeFieldParams_truncates_high_flags :
    ∀ ns_e cp_s cp_e dtx_e td_e ts_e : Bool,
      modeFieldParams ns_e cp_s cp_e dtx_e td_e ts_e =
        (bit ns_e <<< 6 ||| bit cp_s <<< 7) % 2 ^ 8 := by
  decide

/-! ## Claim C9: AmbeFrame::byteLength -/

/-- C9: `AmbeFrame::byteLength(count)` is the ceiling of `count / 8` —
equivalently `(count + 7) / 8` — and in particular `byteLength 0 = 0`. -/
theorem byteLength_eq_ceil (count : Nat) :
    byteLength count = (count + 7) / 8 ∧ byteLength 0 = 0 := by
  constructor
  · unfold byteLength
    by_cases h : count % 8 > 0 <;> simp [h] <;> omega
  · rfl

/-! ## Claim C6: failure characterization of the parsing constructor -/

@[simp] theorem isOk_error {ε α : Type} (e : ε) :
    (Except.error e : Except ε α).isOk = false := rfl

@[simp] theorem isOk_ok {ε α : Type} (a : α) :
    (Except.ok a : Except ε α).isOk = true := rfl

theorem headerCheck_isOk_false_iff (b : List Nat) :
    (headerCheck b).isOk = false ↔
      (b[0]? ≠ some START_BYTE ∨
       (b[3]? ≠ some 0 ∧ b[3]? ≠ some 1 ∧ b[3]? ≠ some 2) ∨
       headerLen b ≠ b.length - 4) := by
  unfold headerCheck
  by_cases h4 : b.length < 4
  · have h3 : b[3]? = none := List.getElem?_eq_none (by omega)
    simp [h4, h3]
  · have hlt0 : 0 < b.length := by omega
    have hlt3 : 3 < b.length := by omega
    have h0 : b.getD 0 0 = b[0] := by
      simp [List.getD_eq_getElem?_getD, List.getElem?_eq_getElem hlt0]
    have h3 : b.getD 3 0 = b[3] := by
      simp [List.getD_eq_getElem?_getD, List.getElem?_eq_getElem hlt3]
    rw [if_neg h4]
    simp only [h0, h3, List.getElem?_eq_getElem hlt0,
      List.getElem?_eq_getElem hlt3]
    by_cases hs : b[0] = START_BYTE
    · by_cases hl : headerLen b = b.length - 4
      · by_cases ht : b[3] = 0 ∨ b[3] = 1 ∨ b[3] = 2
        · simp [hs, hl, ht]
          tauto
        · simp [hs, hl, ht]
          tauto
      · simp [hs, hl]
    · simp [hs]

/-- C6: for every byte string, the parsing constructor
`Packet(bytes, has_parity, check_parity)` fails if and only if the
specification's failure condition holds: the first byte is not `0x61`, the
type byte is not in `{0,1,2}`, the header length field differs from
`bytes.len - 4`, or `has_parity` holds and the buffer is shorter than 6
bytes, or the trailing field pair is not tagged `PARITY`, or `check_parity`
holds and the XOR of bytes `1 .. len-2` differs from the stored parity
value. -/
theorem parse_isOk_false_iff (b : List Nat) (hp cp : Bool) :
    (Packet.parse b hp cp).isOk = false ↔ parseFailCond b hp cp := by
  have hhc := headerCheck_isOk_false_iff b
  unfold Packet.parse parseFailCond
  by_cases hpt : hp = true
  case neg =>
    rw [if_neg hpt]
    rcases hc : headerCheck b with e | u <;> rw [hc] at hhc <;> simp only [hc]
    · simp only [isOk_error]
      have h3 := hhc.mp rfl
      constructor
      · intro _
        tauto
      · intro _
        trivial
    · simp only [isOk_ok] at hhc
      have hnd : ¬(b[0]? ≠ some START_BYTE ∨
          (b[3]? ≠ some 0 ∧ b[3]? ≠ some 1 ∧ b[3]? ≠ some 2) ∨
          headerLen b ≠ b.length - 4) := by
        rw [← hhc]; simp
      constructor
      · intro h
        simp at h
      · rintro (h | h | h | h)
        · exact absurd (Or.inl h) hnd
        · exact absurd (Or.inr (Or.inl h)) hnd
        · exact absurd (Or.inr (Or.inr h)) hnd
        · exact absurd h.1 hpt
  case pos =>
    rw [if_pos hpt]
    by_cases h6 : b.length < 6
    · rw [if_pos h6]
      simp only [isOk_error]
      constructor
      · intro _
        exact Or.inr (Or.inr (Or.inr ⟨hpt, Or.inl h6⟩))
      · intro _
        trivial
    · rw [if_neg h6]
      by_cases htag : b.getD (b.length - 2) 0 = FT_PARITY
      case neg =>
        rw [if_pos htag]
        simp only [isOk_error]
        constructor
        · intro _
          exact Or.inr (Or.inr (Or.inr ⟨hpt, Or.inr (Or.inl htag)⟩))
        · intro _
          trivial
      case pos =>
        rw [if_neg (not_not_intro htag)]
        by_cases hpar : cp = true ∧
            parityOf ((b.drop 1).take (b.length - 2)) ≠ b.getD (b.length - 1) 0
        · rw [if_pos hpar]
          simp only [isOk_error]
          constructor
          · intro _
            exact Or.inr (Or.inr (Or.inr ⟨hpt, Or.inr (Or.inr hpar)⟩))
          · intro _
            trivial
        · rw [if_neg hpar]
          rcases hc : headerCheck b with e | u <;> rw [hc] at hhc <;>
            simp only [hc]
          · simp only [isOk_error]
            have h3 := hhc.mp rfl
            constructor
            · intro _
              tauto
            · intro _
              trivial
          · simp only [isOk_ok] at hhc
            have hnd : ¬(b[0]? ≠ some START_BYTE ∨
                (b[3]? ≠ some 0 ∧ b[3]? ≠ some 1 ∧ b[3]? ≠ some 2) ∨
                headerLen b ≠ b.length - 4) := by
              rw [← hhc]; simp
            constructor
            · intro h
              simp at h
            · rintro (h | h | h | h)
              · exact absurd (Or.inl h) hnd
              · exact absurd (Or.inr (Or.inl h)) hnd
              · exact absurd (Or.inr (Or.inr h)) hnd
              · rcases h.2 with h' | h' | h'
                · exact absurd h' h6
                · exact absurd htag h'
                · exact absurd h' hpar

/-! ## FifoScheduler (scheduler.cc)

State: the monotonically increasing `tag` counter and the
`unordered_map<int32_t, ResponseCallback> submitted` (callbacks are modelled
by identifiers).  The C++ `int32_t` tag is modelled as `Int`; the driver
never performs enough submissions to wrap it. -/

/-- C3 (code bug): on a fresh `FifoScheduler`, a `submitAsync` whose
`device.send` throws invokes the callback with the empty `Packet()` sentinel
— and nevertheless records `tag → callback` in `submitted`, because the
assignment `submitted[tag] = callback` is reached on the exception path as
well (there is no early return in the `catch` block). -/
theorem fifo_send_failure_records_tag :
    (fifoSubmitAsync fifoStart 7 false).2 = [(7, Packet.new 0)] ∧
    (fifoSubmitAsync fifoStart 7 false).1.tag = 1 ∧
    (fifoSubmitAsync fifoStart 7 false).1.submitted = [(1, 7)] := by
  decide

/-! ## API::softReset (api.cc)

```
string zero(10, '\0');
for(int i = 0; i < 3500; i++) dev->send(zero);
Packet request;
request.append<Field>(RESET);
request.finalize(device.uses_parity);
auto response = scheduler.submit(request).get();
parse<Field>(response, READY);   // no parity check
```
-/

theorem sendZeros_eq (n : Nat) (t : List (List Nat)) :
    sendZeros n t = t ++ List.replicate n zeroChunk := by
  induction n generalizing t with
  | zero => simp [sendZeros]
  | succ k ih =>
    rw [sendZeros, ih, List.replicate_succ]
    simp

/-- C4 counterexample: `API::softReset` does not send 350 groups of 10 zero
bytes before the RESET packet — the loop bound in the source is 3500, so the
trace has 3501 entries, not 351. -/
theorem softReset_not_350_groups :
    softResetSends true
      ≠ List.replicate 350 zeroChunk ++ [(resetPacket true).data] := by
  intro h
  have hlen := congrArg List.length h
  rw [softResetSends, sendZeros_eq] at hlen
  simp only [List.nil_append, List.length_append, List.length_replicate,
    List.length_cons, List.length_nil] at hlen
  omega

/-- C4 (amended): `API::softReset` first sends exactly 3500 groups of 10
zero bytes (35000 zero bytes in total) to the device and only then sends the
RESET packet; the READY response is parsed without parity checking — the
schedulers construct every response packet with `check_parity = false`, so
even a READY response with a corrupted parity byte is accepted (while a
checking parse of the same bytes would fail). -/
theorem softReset_sends_spec (uses_parity : Bool) :
    softResetSends uses_parity
        = List.replicate 3500 zeroChunk ++ [(resetPacket uses_parity).data] ∧
    zeroChunk = List.replicate 10 0 ∧
    (recvParse readyBadParity true).isOk = true ∧
    (Packet.parse readyBadParity true true).isOk = false := by
  refine ⟨?_, rfl, by decide, by decide⟩
  rw [softResetSends, sendZeros_eq, List.nil_append]

/-! ## MultiQueueScheduler (scheduler.cc / scheduler.h)

The scheduling thread (`MultiQueueScheduler::run`) pops events from the
multi-producer `process` queue.  An event is the C++
`State = tuple<Packet, optional<ResponseCallback>>`: a request carries an
engaged callback (modelled by an identifier), a response pushed by `recv`
carries `nullopt`.  `run` is modelled as a fold over the list of popped
events; each step performs the event dispatch followed by the two drain
loops exactly as in the source.  `device.send` calls are accumulated in a
`sent` trace and callback invocations in a `delivered` trace. -/

/-- C1 (code bug, evaluated): with `channels = 1`, after submitting three
SPEECH requests for channel 0 the scheduler has sent all three —
`submitted_by_queue[0] = 3 > 2` — because `canSend` only applies the
per-queue bound when `queueIndex > 0`: with `submitted_by_queue[0]` already
at 2 it still admits another queue-0 packet.  The total and per-type bounds
(`submitted.size() ≤ 2N+4 = 6`, `submitted_by_type[0] ≤ N+2 = 3`) do not
refuse either. -/
theorem mq_queue0_exceeds_two :
    ((runLoop (initMQ 1) c1Events).1.submitted_by_queue.getD 0 0 = 3) ∧
    ((runLoop (initMQ 1) c1Events).1.sent.length = 3) ∧
    (∀ e ∈ (runLoop (initMQ 1) c1Events).1.sent, queueIndex e.1 = 0) ∧
    ((runLoop (initMQ 1) (c1Events.take 2)).1.submitted_by_queue.getD 0 0
        = 2) ∧
    canSend (runLoop (initMQ 1) (c1Events.take 2)).1 spch0 = true := by
  decide

/-! ## List toolkit for the scheduler proofs -/

theorem getD_set_self {α} (l : List α) (i : Nat) (x d : α) (h : i < l.length) :
    (l.set i x).getD i d = x := by
  simp [List.getD_eq_getElem?_getD, List.getElem?_set_self',
    List.getElem?_eq_getElem h]

theorem getD_set_ne {α} (l : List α) (i j : Nat) (x d : α) (h : i ≠ j) :
    (l.set i x).getD j d = l.getD j d := by
  simp [List.getD_eq_getElem?_getD, List.getElem?_set_ne h]

theorem getD_of_le {α} (l : List α) (i : Nat) (d : α) (h : l.length ≤ i) :
    l.getD i d = d := by
  simp [List.getD_eq_getElem?_getD, List.getElem?_eq_none h]

theorem getD_replicate_of_lt {α} (n i : Nat) (x d : α) (h : i < n) :
    (List.replicate n x).getD i d = x := by
  simp [List.getD_eq_getElem?_getD, List.getElem?_replicate, h]

theorem sum_map_length_set_append {α} (l : List (List α)) (i : Nat) (x : α)
    (h : i < l.length) :
    ((l.set i (l.getD i [] ++ [x])).map List.length).sum
      = (l.map List.length).sum + 1 := by
  induction l generalizing i with
  | nil => simp at h
  | cons hd tl ih =>
    cases i with
    | zero => simp; omega
    | succ n =>
      have hn : n < tl.length := by simpa using h
      have := ih n hn
      simp only [List.set_cons_succ, List.map_cons, List.sum_cons,
        List.getD_cons_succ] at this ⊢
      omega

theorem sum_map_length_set_tail {α} (l : List (List α)) (i : Nat) (e : α)
    (rest : List α) (h : i < l.length) (hg : l.getD i [] = e :: rest) :
    ((l.set i rest).map List.length).sum + 1 = (l.map List.length).sum := by
  induction l generalizing i with
  | nil => simp at h
  | cons hd tl ih =>
    cases i with
    | zero =>
      simp only [List.getD_cons_zero] at hg
      subst hg
      simp
      omega
    | succ n =>
      have hn : n < tl.length := by simpa using h
      have hg' : tl.getD n [] = e :: rest := by simpa using hg
      have := ih n hn hg'
      simp only [List.set_cons_succ, List.map_cons, List.sum_cons,
        List.getD_cons_succ] at this ⊢
      omega

theorem pair_sublist_of_getElem {α} (l : List α) (i j : Nat) (a b : α)
    (hij : i < j) (ha : l[i]? = some a) (hb : l[j]? = some b) :
    List.Sublist [a, b] l := by
  induction l generalizing i j with
  | nil => simp at ha
  | cons x t ih =>
    cases i with
    | zero =>
      have hax : x = a := by simpa using ha
      subst hax
      cases j with
      | zero => omega
      | succ j' =>
        have hb' : t[j']? = some b := by simpa using hb
        have hbm : b ∈ t := by
          obtain ⟨hlt, rfl⟩ := List.getElem?_eq_some.mp hb'
          exact List.getElem_mem hlt
        exact (List.singleton_sublist.mpr hbm).cons₂ x
    | succ i' =>
      cases j with
      | zero => omega
      | succ j' =>
        have := ih i' j' (by omega) (by simpa using ha) (by simpa using hb)
        exact this.cons x

theorem pair_sublist_indices {α} (l : List α) (a b : α) (h : List.Sublist [a, b] l) :
    ∃ i j : Nat, i < j ∧ l[i]? = some a ∧ l[j]? = some b := by
  induction l with
  | nil => cases h
  | cons x t ih =>
    cases h with
    | cons _ h' =>
      obtain ⟨i, j, hij, ha, hb⟩ := ih h'
      exact ⟨i + 1, j + 1, by omega, by simpa using ha, by simpa using hb⟩
    | cons₂ _ h' =>
      have hbm : b ∈ t := List.singleton_sublist.mp h'
      obtain ⟨j, hj, he⟩ := List.getElem_of_mem hbm
      refine ⟨0, j + 1, by omega, by simp, ?_⟩
      simpa using (List.getElem?_eq_getElem hj).trans (congrArg some he)

theorem nodup_getElem?_inj {α} (l : List α) (hnd : l.Nodup) (i j : Nat)
    (v : α) (hi : l[i]? = some v) (hj : l[j]? = some v) : i = j := by
  obtain ⟨hi', hvi⟩ := List.getElem?_eq_some.mp hi
  obtain ⟨hj', hvj⟩ := List.getElem?_eq_some.mp hj
  exact (List.Nodup.getElem_inj_iff hnd).mp (hvi.trans hvj.symm)

theorem pair_sublist_prefix {α} (P S : List α) (a b : α)
    (hnd : (P ++ S).Nodup) (h : List.Sublist [a, b] (P ++ S)) (hb : b ∈ P) :
    List.Sublist [a, b] P := by
  obtain ⟨i, j, hij, ha, hbj⟩ := pair_sublist_indices _ _ _ h
  obtain ⟨k, hk, he⟩ := List.getElem_of_mem hb
  have hkPS : (P ++ S)[k]? = some b := by
    rw [List.getElem?_append, if_pos hk, List.getElem?_eq_getElem hk, he]
  have hjk : j = k := nodup_getElem?_inj _ hnd _ _ _ hbj hkPS
  have hjP : j < P.length := by omega
  have hiP : i < P.length := by omega
  have ha' : P[i]? = some a := by
    rw [← ha, List.getElem?_append, if_pos hiP]
  have hb' : P[j]? = some b := by
    rw [← hbj, List.getElem?_append, if_pos hjP]
  exact pair_sublist_of_getElem P i j a b hij ha' hb'

/-! ### Callback identifiers

`ids l` projects the engaged callback identifiers out of a list of
request tuples, in order. -/

/-- With no duplicate identifiers, two members of `L` carrying the same
identifier are the same tuple. -/
theorem carrier_unique (L : List Req) (hnd : (ids L).Nodup)
    (x y : Req) (hx : x ∈ L) (hy : y ∈ L) (v : Nat)
    (hxv : x.2 = some v) (hyv : y.2 = some v) : x = y := by
  induction L with
  | nil => cases hx
  | cons h t ih =>
    rw [ids, List.filterMap_cons] at hnd
    cases hh : h.2 with
    | none =>
      rw [hh] at hnd
      cases hx with
      | head =>
        rw [hxv] at hh
        cases hh
      | tail _ hx' =>
        cases hy with
        | head =>
          rw [hyv] at hh
          cases hh
        | tail _ hy' => exact ih hnd hx' hy'
    | some w =>
      rw [hh] at hnd
      have hw : w ∉ ids t := (List.nodup_cons.mp hnd).1
      have hndt := (List.nodup_cons.mp hnd).2
      cases hx with
      | head =>
        cases hy with
        | head => rfl
        | tail _ hy' =>
          exfalso
          apply hw
          have hwv : w = v := by
            rw [hxv] at hh
            exact (Option.some.injEq _ _ ▸ hh).symm ▸ rfl
          rw [hwv]
          exact List.mem_filterMap.mpr ⟨y, hy', hyv⟩
      | tail _ hx' =>
        cases hy with
        | head =>
          exfalso
          apply hw
          have hwv : w = v := by
            rw [hyv] at hh
            exact (Option.some.injEq _ _ ▸ hh).symm ▸ rfl
          rw [hwv]
          exact List.mem_filterMap.mpr ⟨x, hx', hxv⟩
        | tail _ hy' => exact ih hndt hx' hy'

theorem count_ids (L : List Req) (v : Nat) :
    (ids L).count v = L.countP (fun e => e.2 == some v) := by
  induction L with
  | nil => rfl
  | cons h t ih =>
    show (List.filterMap Prod.snd (h :: t)).count v = _
    rw [List.filterMap_cons, List.countP_cons]
    cases hh : h.2 with
    | none =>
      simp only [hh]
      have ih' : (List.filterMap Prod.snd t).count v
          = List.countP (fun e => e.2 == some v) t := ih
      have hb : ((none : Option Nat) == some v) = false := rfl
      simp only [hb, Bool.false_eq_true, if_false]
      omega
    | some w =>
      simp only [hh]
      rw [List.count_cons]
      have ih' : (List.filterMap Prod.snd t).count v
          = List.countP (fun e => e.2 == some v) t := ih
      by_cases hw : w = v
      · have h1 : (v == w) = true := by simp [hw]
        have h2 : (w == v) = true := by simp [hw]
        have h3 : (some w == some v) = true := by simp [hw]
        simp only [h1, h2, h3, if_pos rfl]
        omega
      · have h1 : (v == w) = false := by simp [Ne.symm hw]
        have h2 : (w == v) = false := by simp [hw]
        have h3 : (some w == some v) = false := by simp [hw]
        simp only [h1, h2, h3, Bool.false_eq_true, if_false]
        omega

theorem countP_le_count (L : List Req) (p : Req → Bool) (ev : Req)
    (h : ∀ x ∈ L, p x → x = ev) : L.countP p ≤ L.count ev := by
  induction L with
  | nil => simp
  | cons x t ih =>
    rw [List.countP_cons, List.count_cons]
    have ht := ih (fun y hy hp => h y (List.mem_cons_of_mem _ hy) hp)
    by_cases hp : p x = true
    · have hx : x = ev := h x (List.mem_cons_self x t) hp
      subst hx
      have hbeq : (x == x) = true := beq_self_eq_true x
      rw [if_pos hp, hbeq, if_pos rfl]
      omega
    · rw [if_neg hp]
      by_cases hbe : (x == ev) = true
      · rw [hbe, if_pos rfl]
        omega
      · rw [if_neg (by simpa using hbe)]
        omega

/-! ### The run-loop invariant

`processed` is the list of events popped from `process` so far.  An event is
a *request* when the run loop files it into a queue: non-empty payload and an
engaged callback.  The invariant ties each queue and the `sent` trace to the
filtered sequence of processed request events, and the `delivered` trace to
the resolved prefix of `sent`. -/

theorem initMQ_inv (N : Nat) : Inv N [] (initMQ N) := by
  refine ⟨rfl, by simp [initMQ], by simp [initMQ], by simp [initMQ],
    ?_, ?_, ?_, ?_⟩
  · intro q hq
    simp [initMQ, getD_replicate_of_lt _ _ _ _ hq]
  · intro e he
    simp [initMQ] at he
  · exact ⟨[], by simp [initMQ], by simp [initMQ, ids]⟩
  · intro c hc
    simp [initMQ] at hc

theorem dispatch_inv {N : Nat} {processed : List Req} {s : MQ} {e : Req}
    (hI : Inv N processed s) (hwf : wfEvent N e) :
    Inv N (processed ++ [e]) (dispatch s e) := by
  obtain ⟨chans, len_cq, queued_eq, dev_inv, chan_inv, sent_range,
    sub_split, term_src⟩ := hI
  by_cases h0 : e.1.payloadLength = 0
  · -- termination sentinel: only `quit` and `terminated` change
    have hreq : isReq e = false := by simp [isReq, h0]
    have hfilter : (processed ++ [e]).filter isReq = processed.filter isReq := by
      rw [List.filter_append]
      simp [hreq]
    simp only [dispatch, if_pos h0]
    refine ⟨chans, len_cq, queued_eq, by rw [hfilter]; exact dev_inv,
      ?_, sent_range, sub_split, ?_⟩
    · intro q hq
      rw [hfilter]
      exact chan_inv q hq
    · intro c hc
      simp only at hc
      by_cases hs : e.2.isSome = true
      · rw [if_pos hs] at hc
        exact ⟨e, List.mem_append_right _ (List.mem_singleton.mpr rfl), h0, hc⟩
      · rw [if_neg hs] at hc
        obtain ⟨w, hw, h1, h2⟩ := term_src c hc
        exact ⟨w, List.mem_append_left _ hw, h1, h2⟩
  · by_cases hsome : e.2.isSome = true
    · -- a new request: file it
      have hreq : isReq e = true := by simp [isReq, h0, hsome]
      have hfilter : (processed ++ [e]).filter isReq
          = processed.filter isReq ++ [e] := by
        rw [List.filter_append]
        simp [hreq]
      rcases hwf hsome h0 with hqi | ⟨hge, hlt⟩
      on_goal 2 =>
        obtain ⟨q0, hqi⟩ : ∃ q0 : Nat, queueIndex e.1 = (q0 : Int) :=
          ⟨(queueIndex e.1).toNat, (Int.toNat_of_nonneg hge).symm⟩
        have hq0 : q0 < 2 * N := by omega
      · -- device-wide request
        simp only [dispatch, if_neg h0, if_pos hsome, if_pos hqi]
        refine ⟨chans, len_cq, ?_, ?_, ?_, sent_range, sub_split, ?_⟩
        · simp only [List.length_append, List.length_singleton]
          omega
        · rw [hfilter, List.filter_append]
          have he1 : [e].filter (qiP (-1)) = [e] := by simp [qiP, hqi]
          rw [he1, ← List.append_assoc, dev_inv]
        · intro q hq
          rw [hfilter, List.filter_append]
          have he1 : [e].filter (qiP q) = [] := by
            have hb : qiP q e = false := by
              simp [qiP, hqi] <;> omega
            simp [hb]
          rw [he1, List.append_nil]
          exact chan_inv q hq
        · intro c hc
          obtain ⟨w, hw, h1, h2⟩ := term_src c hc
          exact ⟨w, List.mem_append_left _ hw, h1, h2⟩
      · -- channel-queue request, queue q0 < 2N
        have hne : ¬(queueIndex e.1 = -1) := by omega
        have htn : (queueIndex e.1).toNat = q0 := by
          rw [hqi]
          simp
        have hq0len : q0 < s.channel_queue.length := by omega
        simp only [dispatch, if_neg h0, if_pos hsome, if_neg hne, htn]
        refine ⟨chans, by simpa using len_cq, ?_, ?_, ?_, sent_range,
          sub_split, ?_⟩
        · simp only
          rw [sum_map_length_set_append _ _ _ hq0len]
          omega
        · simp only
          rw [hfilter, List.filter_append]
          have he1 : [e].filter (qiP (-1)) = [] := by
            have hb : qiP (-1) e = false := by
              simp [qiP, hqi]
            simp [hb]
          rw [he1, List.append_nil]
          exact dev_inv
        · intro q hq
          simp only
          rw [hfilter, List.filter_append]
          by_cases hqq : q = q0
          · subst hqq
            have he1 : [e].filter (qiP q) = [e] := by simp [qiP, hqi]
            rw [he1, getD_set_self _ _ _ _ hq0len, ← List.append_assoc,
              chan_inv q hq]
          · have he1 : [e].filter (qiP q) = [] := by
              have hb : qiP q e = false := by
                simp [qiP, hqi] <;> omega
              simp [hb]
            rw [he1, List.append_nil, getD_set_ne _ _ _ _ _ (Ne.symm hqq)]
            exact chan_inv q hq
        · intro c hc
          obtain ⟨w, hw, h1, h2⟩ := term_src c hc
          exact ⟨w, List.mem_append_left _ hw, h1, h2⟩
    · -- a response from the chip
      have hreq : isReq e = false := by simp [isReq, hsome]
      have hfilter : (processed ++ [e]).filter isReq
          = processed.filter isReq := by
        rw [List.filter_append]
        simp [hreq]
      have hterm : ∀ c, s.terminated = some c →
          ∃ w ∈ processed ++ [e], w.1.payloadLength = 0 ∧ w.2 = some c := by
        intro c hc
        obtain ⟨w, hw, h1, h2⟩ := term_src c hc
        exact ⟨w, List.mem_append_left _ hw, h1, h2⟩
      rcases hsub : s.submitted with _ | ⟨r, rest⟩
      · simp only [dispatch, if_neg h0, if_neg hsome, hsub]
        refine ⟨chans, len_cq, queued_eq, by rw [hfilter]; exact dev_inv,
          ?_, sent_range, ?_, hterm⟩
        · intro q hq
          rw [hfilter]
          exact chan_inv q hq
        · exact sub_split
      · obtain ⟨resolved, hres, hdel⟩ := sub_split
        rw [hsub] at hres
        have key : ∀ (sbt sbq : List Nat) (ds : List (Nat × Packet)),
            ds.map Prod.fst = ids [r] →
            Inv N (processed ++ [e])
              { s with submitted := rest, submitted_by_type := sbt,
                       submitted_by_queue := sbq,
                       delivered := s.delivered ++ ds } := by
          intro sbt sbq ds hds
          refine ⟨chans, len_cq, queued_eq,
            by rw [hfilter]; exact dev_inv, ?_, sent_range, ?_, hterm⟩
          · intro q hq
            rw [hfilter]
            exact chan_inv q hq
          · refine ⟨resolved ++ [r], ?_, ?_⟩
            · simp only
              rw [hres, List.append_assoc]
              rfl
            · simp only [List.map_append, hdel, hds, ids,
                List.filterMap_append]
        by_cases hqir : queueIndex r.1 = -1
        · rcases hr : r.2 with _ | c
          · simp only [dispatch, if_neg h0, if_neg hsome, hsub, hr,
              if_neg (by simp [hqir] : ¬¬queueIndex r.1 = -1)]
            have := key s.submitted_by_type s.submitted_by_queue []
              (by simp [ids, hr])
            simpa using this
          · simp only [dispatch, if_neg h0, if_neg hsome, hsub, hr,
              if_neg (by simp [hqir] : ¬¬queueIndex r.1 = -1)]
            exact key s.submitted_by_type s.submitted_by_queue [(c, e.1)]
              (by simp [ids, hr])
        · rcases hr : r.2 with _ | c
          · simp only [dispatch, if_neg h0, if_neg hsome, hsub, hr,
              if_pos (by simpa using hqir : ¬queueIndex r.1 = -1)]
            have := key
              (s.submitted_by_type.set (typeIndex r.1)
                (s.submitted_by_type.getD (typeIndex r.1) 0 - 1))
              (s.submitted_by_queue.set (queueIndex r.1).toNat
                (s.submitted_by_queue.getD (queueIndex r.1).toNat 0 - 1)) []
              (by simp [ids, hr])
            simpa using this
          · simp only [dispatch, if_neg h0, if_neg hsome, hsub, hr,
              if_pos (by simpa using hqir : ¬queueIndex r.1 = -1)]
            exact key
              (s.submitted_by_type.set (typeIndex r.1)
                (s.submitted_by_type.getD (typeIndex r.1) 0 - 1))
              (s.submitted_by_queue.set (queueIndex r.1).toNat
                (s.submitted_by_queue.getD (queueIndex r.1).toNat 0 - 1))
              [(c, e.1)] (by simp [ids, hr])

/-- The head of a queue that extends a filtered list satisfies the filter
predicates. -/
theorem head_of_queue_mem {A B C : List Req} {p : Req → Bool} {e : Req}
    (h : A ++ e :: B = C.filter p) : p e = true ∧ e ∈ C := by
  have he : e ∈ C.filter p := by
    rw [← h]
    exact List.mem_append_right _ (List.mem_cons_self e B)
  exact ⟨List.of_mem_filter he, List.mem_of_mem_filter he⟩

theorem drainDevice_inv {N : Nat} {processed : List Req} :
    ∀ (fuel : Nat) (s : MQ),
      Inv N processed s → Inv N processed (drainDevice fuel s) := by
  intro fuel
  induction fuel with
  | zero =>
    intro s hI
    exact hI
  | succ f ih =>
    intro s hI
    rcases hdq : s.device_queue with _ | ⟨e, rest⟩
    · have heq : drainDevice (f + 1) s = s := by
        simp only [drainDevice, hdq]
      rw [heq]
      exact hI
    · by_cases hcs : canSend s e.1 = true
      case neg =>
        have heq : drainDevice (f + 1) s = s := by
          simp only [drainDevice, hdq, if_neg hcs]
        rw [heq]
        exact hI
      case pos =>
        obtain ⟨chans, len_cq, queued_eq, dev_inv, chan_inv, sent_range,
          sub_split, term_src⟩ := hI
        rw [hdq] at dev_inv
        have hqi := head_of_queue_mem dev_inv
        have hqie : queueIndex e.1 = -1 := by simpa [qiP] using hqi.1
        have heq : drainDevice (f + 1) s = drainDevice f
            { s with device_queue := rest,
                     submitted := s.submitted ++ [e],
                     sent := s.sent ++ [e],
                     queued := s.queued - 1 } := by
          simp only [drainDevice, hdq, if_pos hcs]
        rw [heq]
        apply ih
        refine ⟨chans, len_cq, ?_, ?_, ?_, ?_, ?_, term_src⟩
        · show s.queued - 1 = rest.length +
            (s.channel_queue.map List.length).sum
          rw [hdq] at queued_eq
          simp only [List.length_cons] at queued_eq
          omega
        · show (s.sent ++ [e]).filter (qiP (-1)) ++ rest
            = (processed.filter isReq).filter (qiP (-1))
          rw [List.filter_append]
          have he1 : [e].filter (qiP (-1)) = [e] := by simp [hqi.1]
          rw [he1, List.append_assoc]
          simpa using dev_inv
        · intro q hq
          show (s.sent ++ [e]).filter (qiP q) ++ s.channel_queue.getD q []
            = (processed.filter isReq).filter (qiP q)
          rw [List.filter_append]
          have he1 : [e].filter (qiP q) = [] := by
            have hb : qiP q e = false := by
              simp [qiP, hqie] <;> omega
            simp [hb]
          rw [he1, List.append_nil]
          exact chan_inv q hq
        · intro x hx
          simp only at hx
          rcases List.mem_append.mp hx with hx | hx
          · exact sent_range x hx
          · rw [List.mem_singleton] at hx
            subst hx
            exact Or.inl hqie
        · obtain ⟨resolved, hres, hdel⟩ := sub_split
          refine ⟨resolved, ?_, hdel⟩
          show s.sent ++ [e] = resolved ++ (s.submitted ++ [e])
          rw [hres, List.append_assoc]

theorem drainChannels_inv {N : Nat} {processed : List Req} :
    ∀ (fuel : Nat) (s : MQ) (j : Nat),
      Inv N processed s → Inv N processed (drainChannels fuel s j) := by
  intro fuel
  induction fuel with
  | zero =>
    intro s j hI
    exact hI
  | succ f ih =>
    intro s j hI
    by_cases hcond : j < s.channel_queue.length ∧ s.queued ≠ 0
    case neg =>
      have heq : drainChannels (f + 1) s j = s := by
        simp only [drainChannels]
        rw [if_neg hcond]
      rw [heq]
      exact hI
    case pos =>
      rcases hq : s.channel_queue.getD s.next [] with _ | ⟨e, rest⟩
      · have heq : drainChannels (f + 1) s j = drainChannels f
            { s with next := (s.next + 1) % s.channel_queue.length }
            (j + 1) := by
          simp only [drainChannels, hq]
          rw [if_pos hcond]
        rw [heq]
        apply ih
        obtain ⟨chans, len_cq, queued_eq, dev_inv, chan_inv, sent_range,
          sub_split, term_src⟩ := hI
        exact ⟨chans, len_cq, queued_eq, dev_inv, chan_inv, sent_range,
          sub_split, term_src⟩
      · by_cases hcs : canSend s e.1 = true
        case neg =>
          have heq : drainChannels (f + 1) s j = drainChannels f
              { s with next := (s.next + 1) % s.channel_queue.length }
              (j + 1) := by
            simp only [drainChannels, hq]
            rw [if_pos hcond, if_neg hcs]
          rw [heq]
          apply ih
          obtain ⟨chans, len_cq, queued_eq, dev_inv, chan_inv, sent_range,
            sub_split, term_src⟩ := hI
          exact ⟨chans, len_cq, queued_eq, dev_inv, chan_inv, sent_range,
            sub_split, term_src⟩
        case pos =>
          obtain ⟨chans, len_cq, queued_eq, dev_inv, chan_inv, sent_range,
            sub_split, term_src⟩ := hI
          have hnext : s.next < s.channel_queue.length := by
            by_contra hc
            rw [getD_of_le _ _ _ (by omega)] at hq
            cases hq
          have hn2N : s.next < 2 * N := by omega
          have hci := chan_inv s.next hn2N
          rw [hq] at hci
          have hqi := head_of_queue_mem hci
          have hqie : queueIndex e.1 = (s.next : Int) := by
            simpa [qiP] using hqi.1
          have heq : drainChannels (f + 1) s j = drainChannels f
              { s with
                channel_queue := s.channel_queue.set s.next rest,
                submitted_by_type := s.submitted_by_type.set (typeIndex e.1)
                  (s.submitted_by_type.getD (typeIndex e.1) 0 + 1),
                submitted_by_queue :=
                  s.submitted_by_queue.set (queueIndex e.1).toNat
                    (s.submitted_by_queue.getD (queueIndex e.1).toNat 0 + 1),
                submitted := s.submitted ++ [e],
                sent := s.sent ++ [e],
                queued := s.queued - 1,
                next := (s.next + 1) % s.channel_queue.length } 1 := by
            simp only [drainChannels, hq]
            rw [if_pos hcond, if_pos hcs]
          rw [heq]
          apply ih
          refine ⟨chans, ?_, ?_, ?_, ?_, ?_, ?_, term_src⟩
          · show (s.channel_queue.set s.next rest).length = 2 * N
            rw [List.length_set]
            exact len_cq
          · show s.queued - 1 = s.device_queue.length +
              ((s.channel_queue.set s.next rest).map List.length).sum
            have := sum_map_length_set_tail _ _ _ _ hnext hq
            omega
          · show (s.sent ++ [e]).filter (qiP (-1)) ++ s.device_queue
              = (processed.filter isReq).filter (qiP (-1))
            rw [List.filter_append]
            have he1 : [e].filter (qiP (-1)) = [] := by
              have hb : qiP (-1) e = false := by
                simp [qiP, hqie]
              simp [hb]
            rw [he1, List.append_nil]
            exact dev_inv
          · intro q hqlt
            show (s.sent ++ [e]).filter (qiP q) ++
                (s.channel_queue.set s.next rest).getD q []
              = (processed.filter isReq).filter (qiP q)
            rw [List.filter_append]
            by_cases hqq : q = s.next
            · subst hqq
              have he1 : [e].filter (qiP s.next) = [e] := by
                simp [qiP, hqie]
              rw [he1, getD_set_self _ _ _ _ hnext, List.append_assoc]
              have h2 := chan_inv s.next hqlt
              rw [hq] at h2
              simpa using h2
            · have he1 : [e].filter (qiP q) = [] := by
                have hb : qiP q e = false := by
                  simp [qiP, hqie] <;> omega
                simp [hb]
              rw [he1, List.append_nil, getD_set_ne _ _ _ _ _ (Ne.symm hqq)]
              exact chan_inv q hqlt
          · intro x hx
            simp only at hx
            rcases List.mem_append.mp hx with hx | hx
            · exact sent_range x hx
            · rw [List.mem_singleton] at hx
              subst hx
              exact Or.inr ⟨s.next, hn2N, hqie⟩
          · obtain ⟨resolved, hres, hdel⟩ := sub_split
            refine ⟨resolved, ?_, hdel⟩
            show s.sent ++ [e] = resolved ++ (s.submitted ++ [e])
            rw [hres, List.append_assoc]

theorem step_inv {N : Nat} {processed : List Req} {s : MQ} {e : Req}
    (hI : Inv N processed s) (hwf : wfEvent N e) :
    Inv N (processed ++ [e]) (step s e) :=
  drainChannels_inv _ _ _ (drainDevice_inv _ _ (dispatch_inv hI hwf))

/-- The run loop consumes a prefix of the pending events; the invariant
holds for the final state against the consumed prefix, and if the loop
exited then its exit condition held: `quit` set, nothing queued, nothing
outstanding. -/
theorem runLoop_inv {N : Nat} :
    ∀ (evs : List Req) (s : MQ) (processed : List Req),
      Inv N processed s → (∀ e ∈ evs, wfEvent N e) →
      ∃ consumed unconsumed,
        evs = consumed ++ unconsumed ∧
        Inv N (processed ++ consumed) (runLoop s evs).1 ∧
        ((runLoop s evs).2 = true →
          (runLoop s evs).1.quit = true ∧ (runLoop s evs).1.queued = 0 ∧
          (runLoop s evs).1.submitted = []) := by
  intro evs
  induction evs with
  | nil =>
    intro s processed hI _
    by_cases hc : s.quit = true ∧ s.queued = 0 ∧ s.submitted = []
    · have heq : runLoop s [] = (s, true) := by
        unfold runLoop
        rw [if_pos hc]
      refine ⟨[], [], by simp, ?_, ?_⟩
      · rw [heq]
        simpa using hI
      · rw [heq]
        intro _
        exact hc
    · have heq : runLoop s [] = (s, false) := by
        unfold runLoop
        rw [if_neg hc]
      refine ⟨[], [], by simp, ?_, ?_⟩
      · rw [heq]
        simpa using hI
      · rw [heq]
        intro h
        cases h
  | cons e rest ih =>
    intro s processed hI hwf
    by_cases hc : s.quit = true ∧ s.queued = 0 ∧ s.submitted = []
    · have heq : runLoop s (e :: rest) = (s, true) := by
        unfold runLoop
        rw [if_pos hc]
      refine ⟨[], e :: rest, by simp, ?_, ?_⟩
      · rw [heq]
        simpa using hI
      · rw [heq]
        intro _
        exact hc
    · have heq : runLoop s (e :: rest) = runLoop (step s e) rest := by
        conv_lhs => rw [runLoop]
        rw [if_neg hc]
      obtain ⟨consumed, unconsumed, hsplit, hInv, hfin⟩ :=
        ih (step s e) (processed ++ [e])
          (step_inv hI (hwf e (List.mem_cons_self e rest)))
          (fun x hx => hwf x (List.mem_cons_of_mem _ hx))
      refine ⟨e :: consumed, unconsumed, by simp [hsplit], ?_, ?_⟩
      · rw [heq]
        have hpp : (processed ++ [e]) ++ consumed = processed ++ e :: consumed := by
          simp
        rw [← hpp]
        exact hInv
      · rw [heq]
        exact hfin

/-- The drains do not touch `quit` or `terminated`. -/
theorem drainDevice_quit_term :
    ∀ (fuel : Nat) (s : MQ),
      (drainDevice fuel s).quit = s.quit ∧
      (drainDevice fuel s).terminated = s.terminated := by
  intro fuel
  induction fuel with
  | zero =>
    intro s
    exact ⟨rfl, rfl⟩
  | succ f ih =>
    intro s
    rcases hdq : s.device_queue with _ | ⟨e, rest⟩
    · simp [drainDevice, hdq]
    · by_cases hcs : canSend s e.1 = true
      · have heq : drainDevice (f + 1) s = drainDevice f
            { s with device_queue := rest,
                     submitted := s.submitted ++ [e],
                     sent := s.sent ++ [e],
                     queued := s.queued - 1 } := by
          simp only [drainDevice, hdq, if_pos hcs]
        rw [heq]
        exact ih _
      · simp [drainDevice, hdq, hcs]

theorem drainChannels_quit_term :
    ∀ (fuel : Nat) (s : MQ) (j : Nat),
      (drainChannels fuel s j).quit = s.quit ∧
      (drainChannels fuel s j).terminated = s.terminated := by
  intro fuel
  induction fuel with
  | zero =>
    intro s j
    exact ⟨rfl, rfl⟩
  | succ f ih =>
    intro s j
    by_cases hcond : j < s.channel_queue.length ∧ s.queued ≠ 0
    case neg =>
      have heq : drainChannels (f + 1) s j = s := by
        simp only [drainChannels]
        rw [if_neg hcond]
      rw [heq]
      exact ⟨rfl, rfl⟩
    case pos =>
      rcases hq : s.channel_queue.getD s.next [] with _ | ⟨e, rest⟩
      · have heq : drainChannels (f + 1) s j = drainChannels f
            { s with next := (s.next + 1) % s.channel_queue.length }
            (j + 1) := by
          simp only [drainChannels, hq]
          rw [if_pos hcond]
        rw [heq]
        exact ih _ _
      · by_cases hcs : canSend s e.1 = true
        · have heq : drainChannels (f + 1) s j = drainChannels f
              { s with
                channel_queue := s.channel_queue.set s.next rest,
                submitted_by_type := s.submitted_by_type.set (typeIndex e.1)
                  (s.submitted_by_type.getD (typeIndex e.1) 0 + 1),
                submitted_by_queue :=
                  s.submitted_by_queue.set (queueIndex e.1).toNat
                    (s.submitted_by_queue.getD (queueIndex e.1).toNat 0 + 1),
                submitted := s.submitted ++ [e],
                sent := s.sent ++ [e],
                queued := s.queued - 1,
                next := (s.next + 1) % s.channel_queue.length } 1 := by
            simp only [drainChannels, hq]
            rw [if_pos hcond, if_pos hcs]
          rw [heq]
          exact ih _ _
        · have heq : drainChannels (f + 1) s j = drainChannels f
              { s with next := (s.next + 1) % s.channel_queue.length }
              (j + 1) := by
            simp only [drainChannels, hq]
            rw [if_pos hcond, if_neg hcs]
          rw [heq]
          exact ih _ _

/-- Every element of the `sent` trace is a processed request event. -/
theorem mem_sent_mem_reqs {N : Nat} {processed : List Req} {s : MQ}
    (hI : Inv N processed s) :
    ∀ e ∈ s.sent, e ∈ processed.filter isReq := by
  intro e he
  rcases hI.sent_range e he with hdev | ⟨q, hq, hqv⟩
  · have hmem : e ∈ s.sent.filter (qiP (-1)) :=
      List.mem_filter.mpr ⟨he, by simp [qiP, hdev]⟩
    have hmem2 : e ∈ s.sent.filter (qiP (-1)) ++ s.device_queue :=
      List.mem_append_left _ hmem
    rw [hI.dev_inv] at hmem2
    exact List.mem_of_mem_filter hmem2
  · have hmem : e ∈ s.sent.filter (qiP q) :=
      List.mem_filter.mpr ⟨he, by simp [qiP, hqv]⟩
    have hmem2 : e ∈ s.sent.filter (qiP q) ++ s.channel_queue.getD q [] :=
      List.mem_append_left _ hmem
    rw [hI.chan_inv q hq] at hmem2
    exact List.mem_of_mem_filter hmem2

/-- At most one event position carries a given callback identifier. -/
theorem carrier_pos_unique :
    ∀ (L : List Req), (ids L).Nodup → ∀ (i j : Nat) (x y : Req) (v : Nat),
      L[i]? = some x → L[j]? = some y → x.2 = some v → y.2 = some v →
      i = j := by
  intro L
  induction L with
  | nil =>
    intro _ i j x y v hi
    simp at hi
  | cons h t ih =>
    intro hnd i j x y v hi hj hx hy
    rw [ids, List.filterMap_cons] at hnd
    cases i with
    | zero =>
      have hxh : h = x := by simpa using hi
      cases j with
      | zero => rfl
      | succ j' =>
        exfalso
        have hj' : t[j']? = some y := by simpa using hj
        have hyt : y ∈ t := by
          obtain ⟨hlt, rfl⟩ := List.getElem?_eq_some.mp hj'
          exact List.getElem_mem hlt
        rw [← hxh] at hx
        rw [hx] at hnd
        have : v ∈ ids t := List.mem_filterMap.mpr ⟨y, hyt, hy⟩
        exact (List.nodup_cons.mp hnd).1 this
    | succ i' =>
      cases j with
      | zero =>
        exfalso
        have hyh : h = y := by simpa using hj
        have hi' : t[i']? = some x := by simpa using hi
        have hxt : x ∈ t := by
          obtain ⟨hlt, rfl⟩ := List.getElem?_eq_some.mp hi'
          exact List.getElem_mem hlt
        rw [← hyh] at hy
        rw [hy] at hnd
        have : v ∈ ids t := List.mem_filterMap.mpr ⟨x, hxt, hx⟩
        exact (List.nodup_cons.mp hnd).1 this
      | succ j' =>
        have hndt : (ids t).Nodup := by
          cases hh : h.2 with
          | none =>
            rw [hh] at hnd
            exact hnd
          | some w =>
            rw [hh] at hnd
            exact (List.nodup_cons.mp hnd).2
        have := ih hndt i' j' x y v (by simpa using hi) (by simpa using hj)
          hx hy
        omega

/-- If the processed request events carry pairwise distinct callback
identifiers then so does the `sent` trace: a request is transmitted at most
once.  (The per-queue prefix structure of `sent` makes a duplicate
impossible.) -/
theorem sent_ids_nodup {N : Nat} {processed : List Req} {s : MQ}
    (hI : Inv N processed s)
    (hnd : (ids (processed.filter isReq)).Nodup) : (ids s.sent).Nodup := by
  by_contra hdup
  rw [List.nodup_iff_count_le_one] at hdup
  push_neg at hdup
  obtain ⟨v, hv⟩ := hdup
  have hv2 : 2 ≤ (ids s.sent).count v := hv
  have hcnt : (ids s.sent).count v = s.sent.countP (fun e => e.2 == some v) :=
    count_ids _ _
  have hpos : 0 < s.sent.countP (fun e => e.2 == some v) := by omega
  obtain ⟨ev, hev, hevp⟩ := List.countP_pos_iff.mp hpos
  have hevv : ev.2 = some v := by simpa using hevp
  have hall : ∀ x ∈ s.sent, (fun e : Req => e.2 == some v) x = true →
      x = ev := by
    intro x hx hxp
    exact carrier_unique _ hnd x ev (mem_sent_mem_reqs hI x hx)
      (mem_sent_mem_reqs hI ev hev) v (by simpa using hxp) hevv
  have hcnt2 : 2 ≤ s.sent.count ev := by
    have := countP_le_count s.sent (fun e => e.2 == some v) ev hall
    omega
  have hmain : ∀ v0 : Int, qiP v0 ev = true →
      (∃ tail, s.sent.filter (qiP v0) ++ tail
        = (processed.filter isReq).filter (qiP v0)) → False := by
    intro v0 hev0 hex
    obtain ⟨tail, hpre⟩ := hex
    have h1 : 2 ≤ (s.sent.filter (qiP v0)).count ev := by
      rw [List.count_filter hev0]
      exact hcnt2
    have h2 : 2 ≤ (ids (s.sent.filter (qiP v0))).count v := by
      rw [count_ids]
      have hmono : (s.sent.filter (qiP v0)).countP (fun x : Req => x == ev)
          ≤ (s.sent.filter (qiP v0)).countP
              (fun e : Req => e.2 == some v) := by
        apply List.countP_mono_left
        intro x _ hx
        have hxe : x = ev := by simpa using hx
        rw [hxe, hevv]
        simp
      have hce : (s.sent.filter (qiP v0)).count ev
          = (s.sent.filter (qiP v0)).countP (fun x : Req => x == ev) := by
        rw [List.count]
      omega
    have hsub : List.Sublist (ids (s.sent.filter (qiP v0)))
        (ids (processed.filter isReq)) := by
      have h3 : List.Sublist (s.sent.filter (qiP v0))
          ((processed.filter isReq).filter (qiP v0)) := by
        rw [← hpre]
        exact List.sublist_append_left _ _
      have h4 : List.Sublist ((processed.filter isReq).filter (qiP v0))
          (processed.filter isReq) := List.filter_sublist _
      exact (h3.trans h4).filterMap _
    have hle : (ids (s.sent.filter (qiP v0))).count v ≤ 1 := by
      have hone := List.nodup_iff_count_le_one.mp hnd v
      have := hsub.count_le v
      omega
    omega
  rcases hI.sent_range ev hev with hdev | ⟨q, hq2N, hqv⟩
  · exact hmain (-1) (by simp [qiP, hdev]) ⟨s.device_queue, hI.dev_inv⟩
  · exact hmain q (by simp [qiP, hqv])
      ⟨s.channel_queue.getD q [], hI.chan_inv q hq2N⟩

/-- Core ordering property of the run loop: callbacks of two same-queue
requests are delivered in submission order. -/
theorem runLoop_order {N : Nat} (evs : List Req)
    (hwf : ∀ e ∈ evs, wfEvent N e) (hnd : (ids evs).Nodup)
    (i j : Nat) (ea eb : Req) (a b : Nat)
    (hij : i < j) (hi : evs[i]? = some ea) (hj : evs[j]? = some eb)
    (ha : ea.2 = some a) (hb : eb.2 = some b)
    (hpa : ea.1.payloadLength ≠ 0) (hpb : eb.1.payloadLength ≠ 0)
    (hq : queueIndex ea.1 = queueIndex eb.1)
    (hain : a ∈ ((runLoop (initMQ N) evs).1.delivered.map Prod.fst))
    (hbin : b ∈ ((runLoop (initMQ N) evs).1.delivered.map Prod.fst)) :
    ∃ ia ib : Nat, ia < ib ∧
      ((runLoop (initMQ N) evs).1.delivered.map Prod.fst)[ia]? = some a ∧
      ((runLoop (initMQ N) evs).1.delivered.map Prod.fst)[ib]? = some b := by
  obtain ⟨consumed, unconsumed, hsplit, hInv0, _⟩ :=
    runLoop_inv evs (initMQ N) [] (initMQ_inv N) hwf
  have hInv : Inv N consumed (runLoop (initMQ N) evs).1 := hInv0
  set sf := (runLoop (initMQ N) evs).1 with hsf
  have hndc : (ids consumed).Nodup := by
    have hsubc : List.Sublist (ids consumed) (ids evs) := by
      rw [hsplit]
      show List.Sublist (List.filterMap Prod.snd consumed)
        (List.filterMap Prod.snd (consumed ++ unconsumed))
      rw [List.filterMap_append]
      exact List.sublist_append_left _ _
    exact hnd.sublist hsubc
  have hndr : (ids (consumed.filter isReq)).Nodup :=
    hndc.sublist ((List.filter_sublist _).filterMap _)
  obtain ⟨resolved, hres, hdel⟩ := hInv.sub_split
  rw [hdel] at hain hbin
  obtain ⟨ra, hra_mem, hra⟩ := List.mem_filterMap.mp hain
  obtain ⟨rb, hrb_mem, hrb⟩ := List.mem_filterMap.mp hbin
  have hra_sent : ra ∈ sf.sent := by
    rw [hres]
    exact List.mem_append_left _ hra_mem
  have hrb_sent : rb ∈ sf.sent := by
    rw [hres]
    exact List.mem_append_left _ hrb_mem
  have hra_reqs : ra ∈ consumed.filter isReq := mem_sent_mem_reqs hInv ra hra_sent
  have hrb_reqs : rb ∈ consumed.filter isReq := mem_sent_mem_reqs hInv rb hrb_sent
  have hra_evs : ra ∈ evs := by
    rw [hsplit]
    exact List.mem_append_left _ (List.mem_of_mem_filter hra_reqs)
  have hrb_evs : rb ∈ evs := by
    rw [hsplit]
    exact List.mem_append_left _ (List.mem_of_mem_filter hrb_reqs)
  have hea_evs : ea ∈ evs := by
    obtain ⟨hlt, rfl⟩ := List.getElem?_eq_some.mp hi
    exact List.getElem_mem hlt
  have heb_evs : eb ∈ evs := by
    obtain ⟨hlt, rfl⟩ := List.getElem?_eq_some.mp hj
    exact List.getElem_mem hlt
  have hra_ea : ra = ea := carrier_unique evs hnd ra ea hra_evs hea_evs a hra ha
  have hrb_eb : rb = eb := carrier_unique evs hnd rb eb hrb_evs heb_evs b hrb hb
  have hea_cons : ea ∈ consumed := by
    rw [← hra_ea]
    exact List.mem_of_mem_filter hra_reqs
  have heb_cons : eb ∈ consumed := by
    rw [← hrb_eb]
    exact List.mem_of_mem_filter hrb_reqs
  obtain ⟨ki, hki, hkie⟩ := List.getElem_of_mem hea_cons
  obtain ⟨kj, hkj, hkje⟩ := List.getElem_of_mem heb_cons
  have hki_evs : evs[ki]? = some ea := by
    rw [hsplit, List.getElem?_append, if_pos hki,
      List.getElem?_eq_getElem hki, hkie]
  have hkj_evs : evs[kj]? = some eb := by
    rw [hsplit, List.getElem?_append, if_pos hkj,
      List.getElem?_eq_getElem hkj, hkje]
  have hki_i : ki = i := carrier_pos_unique evs hnd ki i ea ea a hki_evs hi ha ha
  have hkj_j : kj = j := carrier_pos_unique evs hnd kj j eb eb b hkj_evs hj hb hb
  have hic : consumed[i]? = some ea := by
    rw [← hki_i, List.getElem?_eq_getElem hki, hkie]
  have hjc : consumed[j]? = some eb := by
    rw [← hkj_j, List.getElem?_eq_getElem hkj, hkje]
  have hpair : List.Sublist [ea, eb] consumed :=
    pair_sublist_of_getElem _ _ _ _ _ hij hic hjc
  have hqeb : queueIndex eb.1 = queueIndex ea.1 := hq.symm
  have hfea : (fun e : Req => qiP (queueIndex ea.1) e && isReq e) ea
      = true := by
    simp [qiP, isReq, hpa, ha]
  have hfeb : (fun e : Req => qiP (queueIndex ea.1) e && isReq e) eb
      = true := by
    simp [qiP, isReq, hpb, hb, hqeb]
  have hpairf : List.Sublist [ea, eb]
      ((consumed.filter isReq).filter (qiP (queueIndex ea.1))) := by
    rw [List.filter_filter]
    have hff : [ea, eb].filter
        (fun e : Req => qiP (queueIndex ea.1) e && isReq e) = [ea, eb] := by
      simp only [List.filter, hfea, hfeb]
    rw [← hff]
    exact hpair.filter _
  have hpids : List.Sublist [a, b]
      (ids ((consumed.filter isReq).filter (qiP (queueIndex ea.1)))) := by
    have h1 := hpairf.filterMap Prod.snd
    have h2 : [ea, eb].filterMap Prod.snd = [a, b] := by
      simp [List.filterMap, ha, hb]
    rw [h2] at h1
    exact h1
  have hqv_range := hwf ea hea_evs (by simp [ha]) hpa
  obtain ⟨T, hT⟩ : ∃ T, sf.sent.filter (qiP (queueIndex ea.1)) ++ T
      = (consumed.filter isReq).filter (qiP (queueIndex ea.1)) := by
    rcases hqv_range with hdev | ⟨hge, hlt⟩
    · rw [hdev]
      exact ⟨sf.device_queue, hInv.dev_inv⟩
    · obtain ⟨q0, hq0⟩ : ∃ q0 : Nat, queueIndex ea.1 = (q0 : Int) :=
        ⟨(queueIndex ea.1).toNat, (Int.toNat_of_nonneg hge).symm⟩
      rw [hq0]
      exact ⟨sf.channel_queue.getD q0 [], hInv.chan_inv q0 (by omega)⟩
  have hea_sentF : ea ∈ sf.sent.filter (qiP (queueIndex ea.1)) := by
    refine List.mem_filter.mpr ⟨?_, by simp [qiP]⟩
    rw [← hra_ea]
    exact hra_sent
  have heb_sentF : eb ∈ sf.sent.filter (qiP (queueIndex ea.1)) := by
    refine List.mem_filter.mpr ⟨?_, by simp [qiP, hqeb]⟩
    rw [← hrb_eb]
    exact hrb_sent
  have hb_idsF : b ∈ ids (sf.sent.filter (qiP (queueIndex ea.1))) :=
    List.mem_filterMap.mpr ⟨eb, heb_sentF, hb⟩
  have hnd_reqsF :
      (ids ((consumed.filter isReq).filter (qiP (queueIndex ea.1)))).Nodup :=
    hndr.sublist ((List.filter_sublist _).filterMap _)
  have hidsplit : ids ((consumed.filter isReq).filter (qiP (queueIndex ea.1)))
      = ids (sf.sent.filter (qiP (queueIndex ea.1))) ++ ids T := by
    rw [← hT, ids, List.filterMap_append]
    rfl
  have hpids2 : List.Sublist [a, b]
      (ids (sf.sent.filter (qiP (queueIndex ea.1)))) := by
    apply pair_sublist_prefix _ (ids T) a b ?_ ?_ hb_idsF
    · rw [← hidsplit]
      exact hnd_reqsF
    · rw [← hidsplit]
      exact hpids
  have hpids3 : List.Sublist [a, b] (ids sf.sent) :=
    hpids2.trans ((List.filter_sublist _).filterMap _)
  have hndsent : (ids sf.sent).Nodup := sent_ids_nodup hInv hndr
  have hidsent : ids sf.sent = ids resolved ++ ids sf.submitted := by
    rw [hres, ids, List.filterMap_append]
    rfl
  have hb_res : b ∈ ids resolved := List.mem_filterMap.mpr ⟨rb, hrb_mem, hrb⟩
  have hpids4 : List.Sublist [a, b] (ids resolved) := by
    apply pair_sublist_prefix _ (ids sf.submitted) a b ?_ ?_ hb_res
    · rw [← hidsent]
      exact hndsent
    · rw [← hidsent]
      exact hpids3
  rw [← hdel] at hpids4
  exact pair_sublist_indices _ _ _ hpids4

/-- `run` only extends `delivered`; the other observable fields are those of
the loop's final state. -/
theorem run_fields (N : Nat) (evs : List Req) :
    (run N evs).1.sent = (runLoop (initMQ N) evs).1.sent ∧
    (run N evs).1.device_queue = (runLoop (initMQ N) evs).1.device_queue ∧
    (run N evs).1.channel_queue = (runLoop (initMQ N) evs).1.channel_queue := by
  rcases hrl : runLoop (initMQ N) evs with ⟨sl, fin⟩
  cases fin
  · simp [run, hrl]
  · rcases hterm : sl.terminated with _ | c <;> simp [run, hrl, hterm]

/-- C2: per-pipeline ordering.  For any two requests `ea` (callback `a`) and
`eb` (callback `b`) submitted in that order to the same queue of the
MultiQueueScheduler (`queueIndex` equal: same channel queue, or both `-1` =
the device queue), in a run of the scheduling loop over any event sequence
(the device echoing one response per send, in send order, is the model's
response-resolution rule), if both callbacks are invoked then `a`'s
invocation precedes `b`'s in the delivery trace. -/
theorem mq_per_queue_ordering (N : Nat) (evs : List Req) (hN : N ≤ 3)
    (hwf : ∀ e ∈ evs, wfEvent N e) (hnd : (ids evs).Nodup)
    (i j : Nat) (ea eb : Req) (a b : Nat)
    (hij : i < j) (hi : evs[i]? = some ea) (hj : evs[j]? = some eb)
    (ha : ea.2 = some a) (hb : eb.2 = some b)
    (hpa : ea.1.payloadLength ≠ 0) (hpb : eb.1.payloadLength ≠ 0)
    (hq : queueIndex ea.1 = queueIndex eb.1)
    (hain : a ∈ ((run N evs).1.delivered.map Prod.fst))
    (hbin : b ∈ ((run N evs).1.delivered.map Prod.fst)) :
    ∃ ia ib : Nat, ia < ib ∧
      ((run N evs).1.delivered.map Prod.fst)[ia]? = some a ∧
      ((run N evs).1.delivered.map Prod.fst)[ib]? = some b := by
  obtain ⟨consumed, unconsumed, hsplit, hInv0, _⟩ :=
    runLoop_inv evs (initMQ N) [] (initMQ_inv N) hwf
  rcases hrl : runLoop (initMQ N) evs with ⟨sl, fin⟩
  have hInv : Inv N consumed sl := by
    rw [hrl] at hInv0
    exact hInv0
  have hea_evs : ea ∈ evs := by
    obtain ⟨hlt, rfl⟩ := List.getElem?_eq_some.mp hi
    exact List.getElem_mem hlt
  have heb_evs : eb ∈ evs := by
    obtain ⟨hlt, rfl⟩ := List.getElem?_eq_some.mp hj
    exact List.getElem_mem hlt
  -- the termination callback (if any) cannot be `a` or `b`
  have hterm_ne : ∀ c, sl.terminated = some c → a ≠ c ∧ b ≠ c := by
    intro c hc
    obtain ⟨es, hes_mem, hes0, hesc⟩ := hInv.term_src c hc
    have hes_evs : es ∈ evs := by
      rw [hsplit]
      exact List.mem_append_left _ hes_mem
    constructor
    · intro hac
      subst hac
      have : es = ea := carrier_unique evs hnd es ea hes_evs hea_evs a hesc ha
      rw [this] at hes0
      exact hpa hes0
    · intro hbc
      subst hbc
      have : es = eb := carrier_unique evs hnd es eb hes_evs heb_evs b hesc hb
      rw [this] at hes0
      exact hpb hes0
  -- reduce membership in the run trace to membership in the loop trace
  have hmem_loop : a ∈ (sl.delivered.map Prod.fst) ∧
      b ∈ (sl.delivered.map Prod.fst) := by
    cases fin
    · have hruneq : (run N evs).1 = sl := by simp [run, hrl]
      rw [hruneq] at hain hbin
      exact ⟨hain, hbin⟩
    · rcases hterm : sl.terminated with _ | c
      · have hruneq : (run N evs).1 = sl := by simp [run, hrl, hterm]
        rw [hruneq] at hain hbin
        exact ⟨hain, hbin⟩
      · have hruneq : (run N evs).1.delivered
            = sl.delivered ++ [(c, Packet.new 0)] := by
          simp [run, hrl, hterm]
        rw [hruneq, List.map_append] at hain hbin
        constructor
        · rcases List.mem_append.mp hain with h | h
          · exact h
          · exfalso
            exact (hterm_ne c hterm).1 (by simpa using h)
        · rcases List.mem_append.mp hbin with h | h
          · exact h
          · exfalso
            exact (hterm_ne c hterm).2 (by simpa using h)
  -- the loop-level ordering
  have hord := runLoop_order evs hwf hnd i j ea eb a b hij hi hj ha hb
    hpa hpb hq (by rw [hrl]; exact hmem_loop.1) (by rw [hrl]; exact hmem_loop.2)
  rw [hrl] at hord
  obtain ⟨ia, ib, hiab, hia0, hib0⟩ := hord
  have hia : (sl.delivered.map Prod.fst)[ia]? = some a := hia0
  have hib : (sl.delivered.map Prod.fst)[ib]? = some b := hib0
  have hia_lt : ia < (sl.delivered.map Prod.fst).length := by
    by_contra hcon
    rw [List.getElem?_eq_none (by omega)] at hia
    cases hia
  have hib_lt : ib < (sl.delivered.map Prod.fst).length := by
    by_contra hcon
    rw [List.getElem?_eq_none (by omega)] at hib
    cases hib
  cases fin
  · have hruneq : (run N evs).1 = sl := by simp [run, hrl]
    rw [hruneq]
    exact ⟨ia, ib, hiab, hia, hib⟩
  · rcases hterm : sl.terminated with _ | c
    · have hruneq : (run N evs).1 = sl := by simp [run, hrl, hterm]
      rw [hruneq]
      exact ⟨ia, ib, hiab, hia, hib⟩
    · have hruneq : (run N evs).1.delivered
          = sl.delivered ++ [(c, Packet.new 0)] := by
        simp [run, hrl, hterm]
      rw [hruneq, List.map_append]
      refine ⟨ia, ib, hiab, ?_, ?_⟩
      · rw [List.getElem?_append, if_pos (by simpa using hia_lt)]
        exact hia
      · rw [List.getElem?_append, if_pos (by simpa using hib_lt)]
        exact hib

/-- C10: the termination-sentinel protocol of `MultiQueueScheduler::run`.
A submitted request whose packet has payload length 0 is treated as the
termination sentinel: one `step` on it sets the `quit` flag and stashes its
callback, replacing any previously stashed one; sentinels are never filed
into any queue and never passed to `device.send` (every packet ever sent,
and every packet residing in a queue, has a non-empty payload); and when the
loop exits, it does so only with `queued = 0` (every queued request was
sent) and `submitted = []` (every sent request received its response), at
which point the stashed callback — if any — is invoked exactly once, with
an empty packet, as the appended final entry of the delivery trace. -/
theorem mq_termination_protocol (N : Nat) (evs : List Req) (hN : N ≤ 3)
    (hwf : ∀ e ∈ evs, wfEvent N e) (hnd : (ids evs).Nodup)
    (s0 : MQ) (p0 : Packet) (cb0 : Nat) (hp0 : p0.payloadLength = 0) :
    ((step s0 (p0, some cb0)).quit = true ∧
     (step s0 (p0, some cb0)).terminated = some cb0) ∧
    (∀ e ∈ (run N evs).1.sent, e.1.payloadLength ≠ 0) ∧
    (∀ e ∈ (run N evs).1.device_queue, e.1.payloadLength ≠ 0) ∧
    (∀ q : Nat, ∀ e ∈ (run N evs).1.channel_queue.getD q [],
        e.1.payloadLength ≠ 0) ∧
    ((runLoop (initMQ N) evs).2 = true →
      (runLoop (initMQ N) evs).1.queued = 0 ∧
      (runLoop (initMQ N) evs).1.submitted = [] ∧
      ∀ c, (runLoop (initMQ N) evs).1.terminated = some c →
        (run N evs).1.delivered
          = (runLoop (initMQ N) evs).1.delivered ++ [(c, Packet.new 0)] ∧
        ((run N evs).1.delivered.map Prod.fst).count c = 1) := by
  obtain ⟨consumed, unconsumed, hsplit, hInv0, hfin⟩ :=
    runLoop_inv evs (initMQ N) [] (initMQ_inv N) hwf
  have hInv : Inv N consumed (runLoop (initMQ N) evs).1 := hInv0
  have hndc : (ids consumed).Nodup := by
    have hsubc : List.Sublist (ids consumed) (ids evs) := by
      rw [hsplit]
      show List.Sublist (List.filterMap Prod.snd consumed)
        (List.filterMap Prod.snd (consumed ++ unconsumed))
      rw [List.filterMap_append]
      exact List.sublist_append_left _ _
    exact hnd.sublist hsubc
  have hfields := run_fields N evs
  refine ⟨?_, ?_, ?_, ?_, ?_⟩
  · -- one step on a sentinel
    have hd : (dispatch s0 (p0, some cb0)).quit = true ∧
        (dispatch s0 (p0, some cb0)).terminated = some cb0 := by
      constructor <;> simp [dispatch, hp0]
    have h1 := drainDevice_quit_term
      (dispatch s0 (p0, some cb0)).device_queue.length
      (dispatch s0 (p0, some cb0))
    have h2 := drainChannels_quit_term
      (((drainDevice (dispatch s0 (p0, some cb0)).device_queue.length
          (dispatch s0 (p0, some cb0))).queued + 1) *
        ((drainDevice (dispatch s0 (p0, some cb0)).device_queue.length
          (dispatch s0 (p0, some cb0))).channel_queue.length + 1))
      (drainDevice (dispatch s0 (p0, some cb0)).device_queue.length
        (dispatch s0 (p0, some cb0))) 0
    constructor
    · show (step s0 (p0, some cb0)).quit = true
      unfold step
      rw [h2.1, h1.1, hd.1]
    · show (step s0 (p0, some cb0)).terminated = some cb0
      unfold step
      rw [h2.2, h1.2, hd.2]
  · -- nothing in `sent` is a sentinel
    intro e he
    rw [hfields.1] at he
    have hreqs := mem_sent_mem_reqs hInv e he
    have := List.of_mem_filter hreqs
    simp only [isReq, Bool.and_eq_true, bne_iff_ne] at this
    exact this.1
  · -- nothing in the device queue is a sentinel
    intro e he
    rw [hfields.2.1] at he
    have hmem : e ∈ (runLoop (initMQ N) evs).1.sent.filter (qiP (-1)) ++
        (runLoop (initMQ N) evs).1.device_queue := List.mem_append_right _ he
    rw [hInv.dev_inv] at hmem
    have := List.of_mem_filter (List.mem_of_mem_filter hmem :
      e ∈ consumed.filter isReq)
    simp only [isReq, Bool.and_eq_true, bne_iff_ne] at this
    exact this.1
  · -- nothing in any channel queue is a sentinel
    intro q e he
    rw [hfields.2.2] at he
    by_cases hq : q < 2 * N
    · have hmem : e ∈ (runLoop (initMQ N) evs).1.sent.filter (qiP q) ++
          (runLoop (initMQ N) evs).1.channel_queue.getD q [] :=
        List.mem_append_right _ he
      rw [hInv.chan_inv q hq] at hmem
      have := List.of_mem_filter (List.mem_of_mem_filter hmem :
        e ∈ consumed.filter isReq)
      simp only [isReq, Bool.and_eq_true, bne_iff_ne] at this
      exact this.1
    · rw [getD_of_le _ _ _ (by rw [hInv.len_cq]; omega)] at he
      cases he
  · -- the exit protocol
    intro hfin2
    obtain ⟨hquit, hqueued, hsub⟩ := hfin hfin2
    refine ⟨hqueued, hsub, ?_⟩
    intro c hc
    rcases hrl : runLoop (initMQ N) evs with ⟨sl, fin⟩
    have hfin' : fin = true := by rw [hrl] at hfin2; exact hfin2
    subst hfin'
    have hc' : sl.terminated = some c := by rw [hrl] at hc; exact hc
    have hruneq : (run N evs).1.delivered
        = sl.delivered ++ [(c, Packet.new 0)] := by
      simp [run, hrl, hc']
    have hInvl : Inv N consumed sl := by rw [hrl] at hInv; exact hInv
    constructor
    · exact hruneq
    · -- the terminated callback fires exactly once
      obtain ⟨resolved, hres, hdel⟩ := hInvl.sub_split
      have hnotin : c ∉ sl.delivered.map Prod.fst := by
        intro hcin
        rw [hdel] at hcin
        obtain ⟨rc, hrc_mem, hrc⟩ := List.mem_filterMap.mp hcin
        have hrc_sent : rc ∈ sl.sent := by
          rw [hres]
          exact List.mem_append_left _ hrc_mem
        have hrc_reqs := mem_sent_mem_reqs hInvl rc hrc_sent
        have hrc_req := List.of_mem_filter hrc_reqs
        simp only [isReq, Bool.and_eq_true, bne_iff_ne] at hrc_req
        obtain ⟨es, hes_mem, hes0, hesc⟩ := hInvl.term_src c hc'
        have : rc = es := carrier_unique consumed hndc rc es
          (List.mem_of_mem_filter hrc_reqs) hes_mem c hrc hesc
        rw [this] at hrc_req
        exact hrc_req.1 hes0
      rw [hruneq, List.map_append, List.count_append]
      rw [List.count_eq_zero.mpr hnotin]
      simp

/-- Witness for `mq_per_queue_ordering`, at `N = 1`, requests 1 and 2 on
channel 0's SPEECH queue, responses in send order. -/
theorem mq_per_queue_ordering_witness :
    (ids c2Events).Nodup ∧
    (∃ ia ib : Nat, ia < ib ∧
      ((run 1 c2Events).1.delivered.map Prod.fst)[ia]? = some 1 ∧
      ((run 1 c2Events).1.delivered.map Prod.fst)[ib]? = some 2) :=
  ⟨by decide,
    mq_per_queue_ordering 1 c2Events (by decide) (by decide) (by decide)
      0 1 (spch0, some 1) (spch0, some 2) 1 2 (by decide) (by decide)
      (by decide) rfl rfl (by decide) (by decide) rfl (by decide)
      (by decide)⟩

/-- Witness for `mq_termination_protocol`, at `N = 1`, with a previously
stashed termination callback 5 being replaced by callback 9. -/
theorem mq_termination_protocol_witness :
    (((step { initMQ 1 with terminated := some 5 }
          (Packet.new 0, some 9)).quit = true ∧
      (step { initMQ 1 with terminated := some 5 }
          (Packet.new 0, some 9)).terminated = some 9) ∧
     (∀ e ∈ (run 1 c10Events).1.sent, e.1.payloadLength ≠ 0) ∧
     (∀ e ∈ (run 1 c10Events).1.device_queue, e.1.payloadLength ≠ 0) ∧
     (∀ q : Nat, ∀ e ∈ (run 1 c10Events).1.channel_queue.getD q [],
         e.1.payloadLength ≠ 0) ∧
     ((runLoop (initMQ 1) c10Events).2 = true →
       (runLoop (initMQ 1) c10Events).1.queued = 0 ∧
       (runLoop (initMQ 1) c10Events).1.submitted = [] ∧
       ∀ c, (runLoop (initMQ 1) c10Events).1.terminated = some c →
         (run 1 c10Events).1.delivered
           = (runLoop (initMQ 1) c10Events).1.delivered
              ++ [(c, Packet.new 0)] ∧
         ((run 1 c10Events).1.delivered.map Prod.fst).count c = 1)) :=
  mq_termination_protocol 1 c10Events (by decide) (by decide) (by decide)
    { initMQ 1 with terminated := some 5 } (Packet.new 0) 9 (by decide)

end Ambe
